import Mathlib

/-!
# Calendario: a verification development

A shallow embedding of the event calendar (`App.jsx`, `EventModal.jsx`,
`CalendarGrid.jsx`, `AnalyticsDashboard.jsx`, `store.js`, `db.js`) together
with the JavaScript and date-fns built-ins those files call.

Conventions of the embedding:

* JavaScript strings are Lean strings, read as lists of characters.
* A JavaScript number that may be `NaN` is an `Option`; `none` is `NaN`.
* A `Date` is held as its local time value: the milliseconds elapsed since
  1970-01-01T00:00 on the local wall clock.  Reading and setting local fields
  needs no zone.  Where the code subtracts dates or moves a date by elapsed
  time, the epoch values count: a `Zone` gives the UTC offset in force at a
  local time and at an epoch value, and may change it (daylight saving time).
  `parseDate` takes the offset `tz` in force at the instant it names; the
  notification check subtracts the local time values of two dates half an
  hour apart.  An invalid `Date` is `none`.
* The hours of the statistics and the percentages of the dashboard are
  computed in IEEE 754 doubles (`toDouble`); a double is held as the rational
  it is worth.  Pixel offsets are exact rational arithmetic.
* `String.prototype.toLowerCase` is an argument of the event filter.
-/

namespace Calendario

/-! ## Records (`db.js`) -/

/-- The `mode` property of an event: `'online' | 'presence'`. -/
inductive Mode where
  | online
  | presence
deriving DecidableEq, Repr

/-- The `recurrence` property of an event. -/
inductive Recurrence where
  | none
  | daily
  | weekly
  | monthly
  | yearly
deriving DecidableEq, Repr

/-- The `Event` typedef of `db.js`.  Properties marked optional there are
options here; `duration` is `none` when the stored number is `NaN`. -/
structure Event where
  id : Option Nat
  title : String
  date : String
  startTime : String
  endTime : String
  duration : Option Int
  mode : Mode
  location : Option String
  meetingUrl : Option String
  entityId : Nat
  materials : Option String
  notes : Option String
  recurrence : Option Recurrence
  createdAt : Nat
  updatedAt : Nat
deriving DecidableEq, Repr

/-- The `Entity` typedef of `db.js`. -/
structure Entity where
  id : Option Nat
  name : String
  color : String
deriving DecidableEq, Repr

/-! ## String built-ins -/

/-- Whether `t` starts at some position of `s`: the search behind
`String.prototype.includes`, on character lists. -/
def includesChars : List Char → List Char → Bool
  | [], t => t.isEmpty
  | c :: cs, t => t.isPrefixOf (c :: cs) || includesChars cs t

/-- `s.includes(t)`. -/
def includes (s t : String) : Bool :=
  includesChars s.data t.data

/-- The lower-casing of one character of ISO 8859-1: `A`..`Z` and `À`..`Þ`
(without `×`) move 32 places up, every other character is kept.  On the
characters of ISO 8859-1 this is what `String.prototype.toLowerCase` does. -/
def lowerLatin1Char (c : Char) : Char :=
  if (65 ≤ c.toNat ∧ c.toNat ≤ 90) ∨ (192 ≤ c.toNat ∧ c.toNat ≤ 222 ∧ c.toNat ≠ 215) then
    Char.ofNat (c.toNat + 32)
  else c

/-- A case mapping for the examples: `lowerLatin1Char` on every character. -/
def lowerLatin1 (s : String) : String :=
  String.mk (s.data.map lowerLatin1Char)

/-! ## Event filter (`App.jsx`, `filteredEvents`)

`String.prototype.toLowerCase` follows the Unicode case tables of the
JavaScript engine, which are not in the repository.  The filter therefore
takes the case mapping as its first argument `toLowerCase`; what is proved of
the filter is proved for every mapping. -/

/-- `selectedEntities.length === 0 || selectedEntities.includes(event.entityId)`. -/
def matchesEntity (selectedEntities : List Nat) (event : Event) : Bool :=
  selectedEntities.length == 0 || selectedEntities.contains event.entityId

/-- The search half of the filter callback:
`!searchQuery || title.toLowerCase().includes(q) || (event.notes && notes.toLowerCase().includes(q))`
with `q = searchQuery.toLowerCase()`.  An absent or empty `notes` is falsy. -/
def matchesSearch (toLowerCase : String → String) (searchQuery : String)
    (event : Event) : Bool :=
  searchQuery == "" ||
    includes (toLowerCase event.title) (toLowerCase searchQuery) ||
    (match event.notes with
     | none => false
     | some notes =>
       notes != "" && includes (toLowerCase notes) (toLowerCase searchQuery))

/-- `filteredEvents = allEvents.filter(event => matchesEntity && matchesSearch)`. -/
def filteredEvents (toLowerCase : String → String) (allEvents : List Event)
    (selectedEntities : List Nat) (searchQuery : String) : List Event :=
  allEvents.filter fun event =>
    matchesEntity selectedEntities event && matchesSearch toLowerCase searchQuery event
/-! ## Time values (ECMAScript `Date` abstract operations, on day numbers) -/

/-- `Day(t)`: the day number of a time value. -/
def day (t : Int) : Int := t / 86400000

/-- `TimeWithinDay(t)`. -/
def timeWithinDay (t : Int) : Int := t % 86400000

/-- `DaysInYear(y)`. -/
def daysInYear (y : Int) : Int :=
  if y % 4 ≠ 0 then 365
  else if y % 100 ≠ 0 then 366
  else if y % 400 ≠ 0 then 365
  else 366

/-- `DayFromYear(y)`: the day number of 1 January of year `y`. -/
def dayFromYear (y : Int) : Int :=
  365 * (y - 1970) + (y - 1969) / 4 - (y - 1901) / 100 + (y - 1601) / 400

/-- `YearFromTime`, on a day number: the largest `y` with `dayFromYear y ≤ n`
(`yearFromDay_spec`, `yearFromDay_unique`).  The year is at most one away from
the estimate `1970 + 400 n / 146097`. -/
def yearFromDay (n : Int) : Int :=
  let y := 1970 + (400 * n) / 146097
  if dayFromYear (y + 1) ≤ n then y + 1
  else if dayFromYear y ≤ n then y
  else y - 1

/-- `InLeapYear`, as a function of the year: 1 in a leap year, else 0. -/
def leapDays (y : Int) : Int :=
  if daysInYear y = 366 then 1 else 0

/-- `InLeapYear(t)`, on a day number. -/
def inLeapYear (n : Int) : Int := leapDays (yearFromDay n)

/-- `DayWithinYear(t)`, on a day number. -/
def dayWithinYear (n : Int) : Int := n - dayFromYear (yearFromDay n)

/-- The month table of `MonthFromTime`: the month (0 = January) of day `d` of
a year with `l` leap days. -/
def monthOfYearDay (d l : Int) : Int :=
  if d < 31 then 0
  else if d < 59 + l then 1
  else if d < 90 + l then 2
  else if d < 120 + l then 3
  else if d < 151 + l then 4
  else if d < 181 + l then 5
  else if d < 212 + l then 6
  else if d < 243 + l then 7
  else if d < 273 + l then 8
  else if d < 304 + l then 9
  else if d < 334 + l then 10
  else 11

/-- The offsets of the `DateFromTime` table: the days of the year that come
before month `mn`. -/
def daysBeforeMonth (mn : Int) (l : Int) : Int :=
  if mn = 0 then 0
  else if mn = 1 then 31
  else if mn = 2 then 59 + l
  else if mn = 3 then 90 + l
  else if mn = 4 then 120 + l
  else if mn = 5 then 151 + l
  else if mn = 6 then 181 + l
  else if mn = 7 then 212 + l
  else if mn = 8 then 243 + l
  else if mn = 9 then 273 + l
  else if mn = 10 then 304 + l
  else 334 + l

/-- `MonthFromTime`, on a day number. -/
def monthFromDay (n : Int) : Int := monthOfYearDay (dayWithinYear n) (inLeapYear n)

/-- `DateFromTime`, on a day number: the day of the month, from 1. -/
def dateFromDay (n : Int) : Int :=
  dayWithinYear n - daysBeforeMonth (monthFromDay n) (inLeapYear n) + 1

/-- `WeekDay`, on a day number: 0 = Sunday, 1 = Monday, ..., 6 = Saturday. -/
def weekDay (n : Int) : Int := (n + 4) % 7

/-- `MakeDay(year, month, date)`: months and dates out of range carry over. -/
def makeDay (year month date : Int) : Int :=
  let ym := year + month / 12
  let mn := month % 12
  dayFromYear ym + daysBeforeMonth mn (leapDays ym) + date - 1

/-- `MakeTime(hour, min, sec, ms)`. -/
def makeTime (hour min sec ms : Int) : Int :=
  hour * 3600000 + min * 60000 + sec * 1000 + ms

/-- `MakeDate(day, time)`. -/
def makeDate (dayNumber time : Int) : Int := dayNumber * 86400000 + time

/-! ## `Date.prototype` methods, on local time values -/

def getFullYear (t : Int) : Int := yearFromDay (day t)

def getMonth (t : Int) : Int := monthFromDay (day t)

def getDate (t : Int) : Int := dateFromDay (day t)

def getDay (t : Int) : Int := weekDay (day t)

def getHours (t : Int) : Int := timeWithinDay t / 3600000

def getMinutes (t : Int) : Int := timeWithinDay t / 60000 % 60

/-- `date.setDate(d)`. -/
def setDate (t date : Int) : Int :=
  makeDate (makeDay (getFullYear t) (getMonth t) date) (timeWithinDay t)

/-- `date.setFullYear(y, m, d)`. -/
def setFullYear (t year month date : Int) : Int :=
  makeDate (makeDay year month date) (timeWithinDay t)

/-- `date.setHours(h, m, s, ms)`. -/
def setHours (t hour min sec ms : Int) : Int :=
  makeDate (day t) (makeTime hour min sec ms)

/-- `date.setMinutes(m, s, ms)`. -/
def setMinutes (t min sec ms : Int) : Int :=
  makeDate (day t) (makeTime (getHours t) min sec ms)

/-! ## date-fns -/

def startOfDay (date : Int) : Int := setHours date 0 0 0 0

/-- `startOfMonth`: `setDate(1)`, then `setHours(0, 0, 0, 0)`. -/
def startOfMonth (date : Int) : Int := setHours (setDate date 1) 0 0 0 0

/-- `endOfMonth`: `setFullYear(year, month + 1, 0)`, then
`setHours(23, 59, 59, 999)`. -/
def endOfMonth (date : Int) : Int :=
  let month := getMonth date
  setHours (setFullYear date (getFullYear date) (month + 1) 0) 23 59 59 999

def startOfWeek (date weekStartsOn : Int) : Int :=
  let d := getDay date
  let diff := (if d < weekStartsOn then 7 else 0) + d - weekStartsOn
  setHours (setDate date (getDate date - diff)) 0 0 0 0

def endOfWeek (date weekStartsOn : Int) : Int :=
  let d := getDay date
  let diff := (if d < weekStartsOn then -7 else 0) + 6 - (d - weekStartsOn)
  setHours (setDate date (getDate date + diff)) 23 59 59 999

/-- `addDays`: a zero amount returns the date as it is. -/
def addDays (date amount : Int) : Int :=
  if amount = 0 then date else setDate date (getDate date + amount)

/-- `isSameDay(a, b)`: `+startOfDay(a) === +startOfDay(b)`; an invalid date
is the same day as nothing. -/
def isSameDay (dateLeft : Option Int) (dateRight : Int) : Bool :=
  match dateLeft with
  | none => false
  | some d => startOfDay d == startOfDay dateRight

def isSameMonth (dateLeft dateRight : Int) : Bool :=
  getFullYear dateLeft == getFullYear dateRight && getMonth dateLeft == getMonth dateRight

/-- The `while (+currentDate <= endTime)` loop of `eachDayOfInterval`, step 1.
The fuel bounds the number of rounds; `eachDayLoop_eq` shows that the loop
leaves through its condition before the fuel given by `eachDayOfInterval`
is used up. -/
def eachDayLoop : Nat → Int → Int → List Int
  | 0, _, _ => []
  | fuel + 1, currentDate, endTime =>
    if currentDate ≤ endTime then
      currentDate ::
        eachDayLoop fuel (setHours (setDate currentDate (getDate currentDate + 1)) 0 0 0 0)
          endTime
    else []

/-- `eachDayOfInterval({ start, end })` of date-fns 3: the days are listed
from the earlier date; a reversed interval gives the reversed list. -/
def eachDayOfInterval (start finish : Int) : List Int :=
  let reversed := decide (finish < start)
  let endTime := if reversed then start else finish
  let currentDate := setHours (if reversed then finish else start) 0 0 0 0
  let dates := eachDayLoop ((endTime - currentDate) / 86400000 + 2).toNat currentDate endTime
  if reversed then dates.reverse else dates

/-! ## Month view and timeline columns (`CalendarGrid.jsx`) -/

/-- The `calendarDays` of `renderMonthView`. -/
def calendarDays (currentDate : Int) : List Int :=
  let monthStart := startOfMonth currentDate
  let monthEnd := endOfMonth monthStart
  let startDate := startOfWeek monthStart 1
  let endDate := endOfWeek monthEnd 1
  eachDayOfInterval startDate endDate

/-- The `weekDays` of `renderTimelineView(daysCount)`. -/
def weekDays (daysCount : Int) (currentDate : Int) : List Int :=
  let startDate := if daysCount = 1 then currentDate else startOfWeek currentDate 1
  eachDayOfInterval startDate (addDays startDate (daysCount - 1))

/-! ## Time zones

The functions above read and set the local fields of a date; their results
are the same in every zone.  Where the code subtracts two dates or moves a
date by elapsed time (`end - start` in `handleSubmit`, `addMinutes` and
`addHours` under `hours`), the epoch values of the dates count, and these
depend on the UTC offset in force at each date. -/

/-- A time zone, by its UTC offsets in minutes (local = UTC + offset). -/
structure Zone where
  /-- The offset in force at a local time value: `LocalTZA(t, false)` of
  ECMAScript, in minutes.  A local time that a change of offset skips or
  repeats has the offset from before the change. -/
  offsetAtLocal : Int → Int
  /-- The offset in force at an epoch value: `LocalTZA(t, true)`, in
  minutes. -/
  offsetAtEpoch : Int → Int

/-- The zone that keeps the UTC offset `tz` all year. -/
def fixedZone (tz : Int) : Zone :=
  { offsetAtLocal := fun _ => tz, offsetAtEpoch := fun _ => tz }

/-- ECMAScript `UTC(t)`: the epoch value of a local time value. -/
def Zone.utc (zone : Zone) (t : Int) : Int :=
  t - zone.offsetAtLocal t * 60000

/-- ECMAScript `LocalTime(t)`: the local time value of an epoch value. -/
def Zone.localTime (zone : Zone) (t : Int) : Int :=
  t + zone.offsetAtEpoch t * 60000

/-- Europe/Rome around its change to summer time of 2024: UTC+1 until
2024-03-31 01:00 UTC (day number 19813, 02:00 on the local clock), UTC+2 from
then on.  The local times from 02:00 to 03:00 of that day do not exist and
are read with UTC+1. -/
def romeSpring2024 : Zone :=
  { offsetAtLocal := fun t => if t < makeDate 19813 (3 * 3600000) then 60 else 120
    offsetAtEpoch := fun t => if t < makeDate 19813 (1 * 3600000) then 60 else 120 }

/-! ## Numbers in text -/

/-- `s.split(sep)` for a one-character separator, on character lists. -/
def splitOn (sep : Char) : List Char → List (List Char)
  | [] => [[]]
  | c :: cs =>
    if c = sep then [] :: splitOn sep cs
    else
      match splitOn sep cs with
      | [] => [[c]]
      | p :: ps => (c :: p) :: ps

/-- The value of a character as a digit of radix up to 16. -/
def digitValue (c : Char) : Option Nat :=
  if '0' ≤ c ∧ c ≤ '9' then some (c.toNat - 48)
  else if 'a' ≤ c ∧ c ≤ 'f' then some (c.toNat - 87)
  else if 'A' ≤ c ∧ c ≤ 'F' then some (c.toNat - 55)
  else none

/-- The values of the longest run of radix-`r` digits that starts the text. -/
def leadingDigits (r : Nat) : List Char → List Nat
  | [] => []
  | c :: cs =>
    match digitValue c with
    | some d => if d < r then d :: leadingDigits r cs else []
    | none => []

/-- The number written by a list of digits, most significant first. -/
def ofDigits (r : Nat) (ds : List Nat) : Nat :=
  ds.foldl (fun acc d => acc * r + d) 0

/-- `parseInt(text)` without a radix: leading white space, a sign, an optional
`0x` for radix 16, then the longest run of digits; `NaN` when there is none. -/
def parseInt (text : List Char) : Option Int :=
  let s := text.dropWhile Char.isWhitespace
  let negative := s.head? == some '-'
  let s := if s.head? == some '-' || s.head? == some '+' then s.drop 1 else s
  let hex := s.take 2 == ['0', 'x'] || s.take 2 == ['0', 'X']
  let ds := if hex then leadingDigits 16 (s.drop 2) else leadingDigits 10 s
  if ds.isEmpty then none
  else
    let n : Int := (ofDigits (if hex then 16 else 10) ds : Nat)
    some (if negative then -n else n)

/-- `parseInt(parts[i])`; a missing part is `undefined`, which gives `NaN`. -/
def parseIntAt (parts : List (List Char)) (i : Nat) : Option Int :=
  match parts.get? i with
  | none => none
  | some part => parseInt part

/-- `String(n).padStart(targetLength, '0')` for a natural number. -/
def padStart (targetLength : Nat) (n : Nat) : String :=
  String.mk (List.replicate (targetLength - (Nat.repr n).length) '0' ++ (Nat.repr n).data)

/-- The `HH:mm` text of an hour and a minute. -/
def timeText (hour min : Nat) : String :=
  padStart 2 hour ++ ":" ++ padStart 2 min

/-- date-fns `format(date, 'HH:mm')`. -/
def formatHHmm (date : Int) : String :=
  timeText (getHours date).toNat (getMinutes date).toNat

/-- The year as the `yyyy` token writes it: years up to 0 count backwards
from 1. -/
def eraYear (date : Int) : Nat :=
  if 0 < getFullYear date then (getFullYear date).toNat else (1 - getFullYear date).toNat

/-- date-fns `format(date, 'yyyy-MM-dd')`. -/
def formatDate (date : Int) : String :=
  padStart 4 (eraYear date) ++ "-" ++ padStart 2 (getMonth date + 1).toNat ++ "-" ++
    padStart 2 (getDate date).toNat

/-- date-fns `format(date, 'dd/MM')`. -/
def formatDayMonth (date : Int) : String :=
  padStart 2 (getDate date).toNat ++ "/" ++ padStart 2 (getMonth date + 1).toNat

/-- One or two decimal digits at the start of the text (the pattern `^\d{1,2}`
of date-fns), with the rest of the text. -/
def takeTwoDigits (s : List Char) : Option (Nat × List Char) :=
  match s with
  | a :: b :: rest =>
    if a.isDigit ∧ b.isDigit then some ((a.toNat - 48) * 10 + (b.toNat - 48), rest)
    else if a.isDigit then some (a.toNat - 48, b :: rest)
    else none
  | [a] => if a.isDigit then some (a.toNat - 48, []) else none
  | [] => none

/-- The hour and minute that date-fns `parse(text, 'HH:mm', _)` reads: an hour
of one or two digits up to 23, a colon, a minute of one or two digits up to
59, then nothing but white space. -/
def parseHHmm (text : List Char) : Option (Nat × Nat) :=
  match takeTwoDigits text with
  | none => none
  | some (hour, rest) =>
    if hour ≤ 23 then
      match rest with
      | ':' :: rest =>
        match takeTwoDigits rest with
        | none => none
        | some (min, rest) =>
          if min ≤ 59 ∧ rest.all Char.isWhitespace then some (hour, min) else none
      | _ => none
    else none

/-- date-fns `parse(text, 'HH:mm', referenceDate)`: the parsed hour, then the
parsed minute, are set on the reference date (`setHours(h, 0, 0, 0)`,
`setMinutes(m, 0, 0)`); text of another shape gives an invalid date. -/
def parse (text : String) (referenceDate : Int) : Option Int :=
  match parseHHmm text.data with
  | none => none
  | some (hour, min) => some (setMinutes (setHours referenceDate hour 0 0 0) min 0 0)

/-- The year, month and day written by a date-only ISO text `YYYY-MM-DD`. -/
def parseIsoDate (text : List Char) : Option (Nat × Nat × Nat) :=
  match text with
  | [y3, y2, y1, y0, '-', m1, m0, '-', d1, d0] =>
    if [y3, y2, y1, y0, m1, m0, d1, d0].all Char.isDigit then
      some (ofDigits 10 [y3.toNat - 48, y2.toNat - 48, y1.toNat - 48, y0.toNat - 48],
        ofDigits 10 [m1.toNat - 48, m0.toNat - 48],
        ofDigits 10 [d1.toNat - 48, d0.toNat - 48])
    else none
  | _ => none

/-- `new Date(dateStr)` for the text of a date input.  A date-only ISO text
denotes midnight UTC of that day (ECMAScript `Date.parse`), so in a zone
`tz` minutes ahead of UTC its local time value is that midnight plus
`tz` minutes.  A month outside 1..12, a day outside 1..31 or a text of
another shape is taken as an invalid date. -/
def parseDate (tz : Int) (dateStr : String) : Option Int :=
  match parseIsoDate dateStr.data with
  | none => none
  | some (y, m, d) =>
    if 1 ≤ m ∧ m ≤ 12 ∧ 1 ≤ d ∧ d ≤ 31 then
      some (makeDate (makeDay y ((m : Int) - 1) d) 0 + tz * 60000)
    else none

/-- The character of a decimal digit. -/
def digitChar (k : Nat) : Char := Char.ofNat (48 + k)

/-! ## Day cells and timeline placement (`CalendarGrid.jsx`) -/

/-- The events of a day cell or day column:
`events.filter(e => isSameDay(parseDate(e.date), day))`. -/
def dayEvents (tz : Int) (events : List Event) (day : Int) : List Event :=
  events.filter fun e => isSameDay (parseDate tz e.date) day

/-- `array.slice(start, end)` for indices within `0..`. -/
def slice {α : Type} (l : List α) (start finish : Nat) : List α :=
  (l.take finish).drop start

/-- The events a month cell renders: `dayEvents.slice(0, 4)`. -/
def cellShown (dayEvents : List Event) : List Event :=
  slice dayEvents 0 4

/-- The count of the `+ N altri` line of a month cell, when the line is
rendered: `dayEvents.length > 4 && dayEvents.length - 4`. -/
def cellMore (dayEvents : List Event) : Option Nat :=
  if dayEvents.length > 4 then some (dayEvents.length - 4) else none

/-- A cell of the month view. -/
structure MonthCell where
  day : Int
  outsideMonth : Bool
  shown : List Event
  more : Option Nat
deriving DecidableEq, Repr

/-- The cells of `renderMonthView`, one for each of `calendarDays`. -/
def renderMonthView (tz : Int) (currentDate : Int) (events : List Event) : List MonthCell :=
  (calendarDays currentDate).map fun day =>
    { day := day
      outsideMonth := !isSameMonth day (startOfMonth currentDate)
      shown := cellShown (dayEvents tz events day)
      more := cellMore (dayEvents tz events day) }

/-- The `top` of a timeline event in pixels:
`startHour * 80 + startMin / 60 * 80`, with `startHour` and `startMin` the
`parseInt` of the two parts of `startTime.split(':')`. -/
def eventTop (event : Event) : Option Rat :=
  let parts := splitOn ':' event.startTime.data
  match parseIntAt parts 0, parseIntAt parts 1 with
  | some startHour, some startMin => some ((startHour : Rat) * 80 + (startMin : Rat) / 60 * 80)
  | _, _ => none

/-- The `height` of a timeline event in pixels: `event.duration / 60 * 80`. -/
def eventHeight (event : Event) : Option Rat :=
  event.duration.map fun d => (d : Rat) / 60 * 80

/-- The placed events of one day column of `renderTimelineView`. -/
def columnEvents (tz : Int) (events : List Event) (day : Int) :
    List (Event × Option Rat × Option Rat) :=
  (dayEvents tz events day).map fun event => (event, eventTop event, eventHeight event)

/-! ## The `events` table (`db.js`, Dexie) -/

/-- The `events` store: its records in primary-key order, and the next key of
its `++id` key generator. -/
structure Db where
  events : List Event
  nextId : Nat
deriving DecidableEq, Repr

/-- A record put at its place in primary-key order. -/
def insertByKey (record : Event) : List Event → List Event
  | [] => [record]
  | e :: es =>
    if record.id.getD 0 < e.id.getD 0 then record :: e :: es
    else e :: insertByKey record es

/-- `db.events.add(event)`: without an `id` the record takes the next
generated key; with an `id` it is stored under it, and the call fails
(`none`, a `ConstraintError`) when that key is taken. -/
def Db.add (db : Db) (event : Event) : Option Db :=
  match event.id with
  | none =>
    some { events := insertByKey { event with id := some db.nextId } db.events
           nextId := db.nextId + 1 }
  | some key =>
    if db.events.any (fun e => e.id == some key) then none
    else some { events := insertByKey event db.events, nextId := max db.nextId (key + 1) }

/-- `db.events.update(key, changes)` where `changes` holds every property of
the record: the record under `key`, if there is one, takes the properties of
`changes` and keeps its key. -/
def Db.update (db : Db) (key : Nat) (changes : Event) : Db :=
  { db with
    events := db.events.map fun e =>
      if e.id = some key then { changes with id := some key } else e }

/-! ## The event form (`EventModal.jsx`) -/

/-- The `entityId` of the form state: `''` at first, the value of the chosen
`<option>` (the text of an entity id) after a choice, or the number stored in
an event that was opened for editing. -/
inductive EntityChoice where
  | unset
  | option (id : Nat)
  | number (id : Nat)
deriving DecidableEq, Repr

/-- `!formData.entityId`: the empty text and the number 0 are falsy. -/
def EntityChoice.falsy : EntityChoice → Bool
  | .unset => true
  | .option _ => false
  | .number id => id == 0

/-- `Number(formData.entityId)`. -/
def EntityChoice.toNumber : EntityChoice → Nat
  | .unset => 0
  | .option id => id
  | .number id => id

/-- The `formData` state.  The last four properties are not form fields: they
are present once an event was spread into the state. -/
structure FormData where
  title : String
  date : String
  startTime : String
  endTime : String
  mode : Mode
  location : String
  meetingUrl : String
  entityId : EntityChoice
  materials : String
  notes : String
  recurrence : Recurrence
  id : Option Nat
  duration : Option (Option Int)
  createdAt : Option Nat
  updatedAt : Option Nat
deriving DecidableEq, Repr

/-- The `initialData` prop: the prefill of a slot click, or an event opened
for editing. -/
inductive InitialData where
  | slot (date startTime endTime : String)
  | event (e : Event)
deriving DecidableEq, Repr

/-- The first `formData`: `useState({ title: '', date: format(new Date(), 'yyyy-MM-dd'), ... })`. -/
def initialFormData (today : Int) : FormData :=
  { title := "", date := formatDate today, startTime := "09:00", endTime := "10:00"
    mode := .online, location := "", meetingUrl := "", entityId := .unset
    materials := "", notes := "", recurrence := .none
    id := none, duration := none, createdAt := none, updatedAt := none }

/-- The effect on `initialData`: `setFormData(prev => ({ ...prev, ...initialData }))`. -/
def mergeInitialData (prev : FormData) : Option InitialData → FormData
  | none => prev
  | some (.slot date startTime endTime) =>
    { prev with date := date, startTime := startTime, endTime := endTime }
  | some (.event e) =>
    { title := e.title, date := e.date, startTime := e.startTime, endTime := e.endTime
      mode := e.mode
      location := e.location.getD prev.location
      meetingUrl := e.meetingUrl.getD prev.meetingUrl
      entityId := .number e.entityId
      materials := e.materials.getD prev.materials
      notes := e.notes.getD prev.notes
      recurrence := e.recurrence.getD prev.recurrence
      id := match e.id with
        | some k => some k
        | none => prev.id
      duration := some e.duration
      createdAt := some e.createdAt
      updatedAt := some e.updatedAt }

/-- `initialData?.id`. -/
def initialId : Option InitialData → Option Nat
  | some (.event e) => e.id
  | _ => none

/-- The date with the local fields of the day of `today` and the time
`hour:min`: what `parse` makes of an `HH:mm` text (`parse_timeText`). -/
def timeOfDay (today : Int) (hour min : Nat) : Int :=
  makeDate (day today) ((hour : Int) * 3600000 + (min : Int) * 60000)

/-- `(end - start) / (1000 * 60)` for the two parsed times; `NaN` when one of
them is an invalid date.  The two dates are parsed against one reading
`today` of the clock, which gives them the local fields of that day and the
parsed time; the subtraction is of their epoch values, each under the UTC
offset that the zone has at that local time.  Both epoch values are whole
minutes, so the division is exact (`submitDuration_exact`). -/
def submitDuration (zone : Zone) (formData : FormData) (today : Int) : Option Int :=
  match parse formData.startTime today, parse formData.endTime today with
  | some start, some finish => some ((zone.utc finish - zone.utc start) / (1000 * 60))
  | _, _ => none

/-- The `event` object of `handleSubmit`:
`{ ...formData, entityId: Number(formData.entityId), duration, createdAt: Date.now(), updatedAt: Date.now() }`.
`today` is the value of `new Date()` and `now` the value of `Date.now()`
during the call, `zone` the time zone of the browser. -/
def submitEvent (zone : Zone) (formData : FormData) (today : Int) (now : Nat) : Event :=
  { id := formData.id
    title := formData.title
    date := formData.date
    startTime := formData.startTime
    endTime := formData.endTime
    duration := submitDuration zone formData today
    mode := formData.mode
    location := some formData.location
    meetingUrl := some formData.meetingUrl
    entityId := formData.entityId.toNumber
    materials := some formData.materials
    notes := some formData.notes
    recurrence := some formData.recurrence
    createdAt := now
    updatedAt := now }

/-- How a call of `handleSubmit` ends: at the guard, after the write and
`onClose()`, or with the write failed. -/
inductive Outcome where
  | rejected
  | saved
  | failed
deriving DecidableEq, Repr

/-- The write of `handleSubmit`:
`if (initialData?.id) await db.events.update(initialData.id, event) else await db.events.add(event)`. -/
def persist (initialData : Option InitialData) (event : Event) (db : Db) : Outcome × Db :=
  match initialId initialData with
  | some (key + 1) => (.saved, db.update (key + 1) event)
  | _ =>
    match db.add event with
    | some db' => (.saved, db')
    | none => (.failed, db)

/-- `handleSubmit`: the guard `if (!formData.title || !formData.entityId) return`,
then the event is built and written. -/
def handleSubmit (zone : Zone) (formData : FormData) (initialData : Option InitialData)
    (today : Int) (now : Nat) (db : Db) : Outcome × Db :=
  if formData.title = "" ∨ formData.entityId.falsy = true then (.rejected, db)
  else persist initialData (submitEvent zone formData today now) db

/-! ## Statistics (`AnalyticsDashboard.jsx`) -/

/-- An entry of `entityData`; `hours` is the worth of the stored double. -/
structure EntityDatum where
  name : String
  count : Nat
  hours : Option Rat
  color : String
deriving DecidableEq, Repr

structure ModeDatum where
  name : String
  value : Nat
deriving DecidableEq, Repr

structure TrendPoint where
  date : String
  count : Nat
deriving DecidableEq, Repr

structure Stats where
  entityData : List EntityDatum
  modeData : List ModeDatum
  trendData : List TrendPoint
  total : Nat
deriving DecidableEq, Repr

/-! ### IEEE 754 doubles

A finite JavaScript number is held as the rational it is worth.  An
arithmetic operation of the code gives the double nearest to its exact
result, a tie going to the even mantissa: `a + b` is `toDouble (a + b)`,
`a / b` is `toDouble (a / b)`.  The exponent is not bounded here: results
below `2 ^ (-1022)` or from `2 ^ 1024` on are outside the model. -/

/-- The integer nearest to `y`; of two equally near ones the even one. -/
def roundHalfEven (y : Rat) : Int :=
  let f := ⌊y⌋
  if y - f < 1 / 2 then f
  else if 1 / 2 < y - f then f + 1
  else if f % 2 = 0 then f else f + 1

/-- The double nearest to `x`: with `2 ^ e ≤ |x| < 2 ^ (e + 1)`, the multiple
of `2 ^ (e - 52)` nearest to `x` (53 significant bits), a tie going to the
even multiple. -/
def toDouble (x : Rat) : Rat :=
  if x = 0 then 0
  else
    let ulp : Rat := 2 ^ (Int.log 2 |x| - 52)
    (roundHalfEven (x / ulp) : Rat) * ulp

/-- `parseFloat(x.toFixed(1))` for a double `x`.  `toFixed(1)` writes, after
the sign, the integer `n` nearest to `10 * |x|` (the larger one at a tie) as
`n / 10`; from `10 ^ 21` on it writes the number in full.  `parseFloat` reads
the text back as the nearest double. -/
def toFixed1 (x : Rat) : Rat :=
  if (10 : Rat) ^ 21 ≤ |x| then x
  else toDouble ((if x < 0 then -1 else 1) * ((⌊|x| * 10 + 1 / 2⌋ : Int) : Rat) / 10)

/-- `entityEvents.reduce((acc, e) => acc + (e.duration / 60), 0)`, in
doubles. -/
def totalHours (entityEvents : List Event) : Option Rat :=
  entityEvents.foldl
    (fun acc e =>
      match acc, e.duration with
      | some a, some d => some (toDouble (a + toDouble ((d : Rat) / 60)))
      | _, _ => none)
    (some 0)

/-- The `entityData` of the statistics. -/
def entityData (events : List Event) (entities : List Entity) : List EntityDatum :=
  (entities.map fun entity =>
    let entityEvents := events.filter fun e => some e.entityId == entity.id
    ({ name := entity.name
       count := entityEvents.length
       hours := (totalHours entityEvents).map toFixed1
       color := entity.color } : EntityDatum)).filter fun d => d.count > 0

/-- The `modeData` of the statistics; `t` is the translation function. -/
def modeData (t : String → String) (events : List Event) : List ModeDatum :=
  [ { name := t "online", value := (events.filter fun e => e.mode == Mode.online).length },
    { name := t "presence", value := (events.filter fun e => e.mode == Mode.presence).length } ]

/-- The `trendData` of the statistics; `today` is the value of `new Date()`. -/
def trendData (today : Int) (events : List Event) : List TrendPoint :=
  let monthStart := startOfMonth today
  let monthEnd := endOfMonth today
  let days := eachDayOfInterval monthStart monthEnd
  days.map fun day =>
    let dayStr := formatDate day
    { date := formatDayMonth day
      count := (events.filter fun e => e.date == dayStr).length }

/-- The `stats` memo: `null` (`none`) for an empty event list. -/
def stats (t : String → String) (today : Int) (events : List Event)
    (entities : List Entity) : Option Stats :=
  if events.length = 0 then none
  else
    some { entityData := entityData events entities
           modeData := modeData t events
           trendData := trendData today events
           total := events.length }

/-- What the dashboard body renders: the "not enough data" text when `stats`
is `null`, the charts otherwise. -/
inductive DashboardBody where
  | noData
  | charts (stats : Stats)
deriving DecidableEq, Repr

/-- `!stats ? <no data> : <charts>`. -/
def dashboardBody (t : String → String) (today : Int) (events : List Event)
    (entities : List Entity) : DashboardBody :=
  match stats t today events entities with
  | none => .noData
  | some s => .charts s

/-! ## Entity colours and entity deletion (`CalendarGrid.jsx`, `App.jsx`) -/

/-- The colour of an event whose entity is not found: `'#94a3b8'`. -/
def defaultColor : String := "#94a3b8"

/-- `entities.find(ent => ent.id === event.entityId)`. -/
def findEntity (entities : List Entity) (event : Event) : Option Entity :=
  entities.find? fun ent => ent.id == some event.entityId

/-- `entity?.color || '#94a3b8'`: the default stands in for a missing entity
and for an empty colour. -/
def eventColor (entities : List Entity) (event : Event) : String :=
  match findEntity entities event with
  | none => defaultColor
  | some entity => if entity.color = "" then defaultColor else entity.color

/-- The event chips of a month cell: the shown events, each with its
background colour. -/
def cellChips (entities : List Entity) (dayEvents : List Event) : List (Event × String) :=
  (cellShown dayEvents).map fun event => (event, eventColor entities event)

/-- An event block of a timeline column. -/
structure TimelineBlock where
  event : Event
  top : Option Rat
  height : Option Rat
  color : String
deriving DecidableEq, Repr

/-- The event blocks of one day column of `renderTimelineView`. -/
def columnBlocks (tz : Int) (entities : List Entity) (events : List Event) (day : Int) :
    List TimelineBlock :=
  (dayEvents tz events day).map fun event =>
    { event := event, top := eventTop event, height := eventHeight event
      color := eventColor entities event }

/-- The columns of `renderTimelineView(daysCount)`: for each of `weekDays` the
placed events of that day. -/
def renderTimelineView (daysCount : Int) (tz : Int) (currentDate : Int)
    (events : List Event) : List (Int × List (Event × Option Rat × Option Rat)) :=
  (weekDays daysCount currentDate).map fun day => (day, columnEvents tz events day)

/-- The two tables the views read: `db.events` and `db.entities`. -/
structure Tables where
  events : Db
  entities : List Entity
deriving DecidableEq, Repr

/-- `db.entities.delete(key)`: the entity under `key` is removed; no other
table is touched (the schema has no foreign keys). -/
def Tables.deleteEntity (db : Tables) (key : Nat) : Tables :=
  { db with entities := db.entities.filter fun ent => ent.id != some key }

/-- The click on the delete button of an entity:
`if (confirm(...)) db.entities.delete(entity.id)`. -/
def deleteEntityClick (confirmed : Bool) (entity : Entity) (db : Tables) : Tables :=
  if confirmed then
    match entity.id with
    | some key => db.deleteEntity key
    | none => db
  else db

/-! ## Notifications (`App.jsx`) -/

/-- `new Date(text)` for a date-time text `YYYY-MM-DDTHH:mm`, which denotes
local time.  A month outside 1..12, a day outside 1..31, a time after 24:00
or a text of another shape is taken as an invalid date. -/
def parseIsoDateTime (text : List Char) : Option Int :=
  match text with
  | [y3, y2, y1, y0, '-', m1, m0, '-', d1, d0, 'T', h1, h0, ':', n1, n0] =>
    if [y3, y2, y1, y0, m1, m0, d1, d0, h1, h0, n1, n0].all Char.isDigit then
      let y := ofDigits 10 [y3.toNat - 48, y2.toNat - 48, y1.toNat - 48, y0.toNat - 48]
      let m := ofDigits 10 [m1.toNat - 48, m0.toNat - 48]
      let d := ofDigits 10 [d1.toNat - 48, d0.toNat - 48]
      let hour := ofDigits 10 [h1.toNat - 48, h0.toNat - 48]
      let min := ofDigits 10 [n1.toNat - 48, n0.toNat - 48]
      if 1 ≤ m ∧ m ≤ 12 ∧ 1 ≤ d ∧ d ≤ 31 ∧ min ≤ 59 ∧ (hour ≤ 23 ∨ (hour = 24 ∧ min = 0)) then
        some (makeDate (makeDay y ((m : Int) - 1) d) (makeTime hour min 0 0))
      else none
    else none
  | _ => none

/-- The `eventDate` of the timer callback:
`new Date(event.date + 'T' + event.startTime)`. -/
def eventDate (event : Event) : Option Int :=
  parseIsoDateTime (event.date ++ "T" ++ event.startTime).data

/-- The `diffMins` of the timer callback: `Math.floor((eventDate - now) / 60000)`. -/
def diffMins (now : Int) (event : Event) : Option Int :=
  (eventDate event).map fun start => (start - now) / 60000

/-- The test of the timer callback: `diffMins === 30`. -/
def notifies (now : Int) (event : Event) : Bool :=
  diffMins now event == some 30

/-- A notification: its title and its body. -/
structure Notification where
  title : String
  body : String
deriving DecidableEq, Repr

/-- `new Notification(event.title, { body: startTime + ' - ' + (entity?.name || '') })`. -/
def notificationOf (entities : List Entity) (event : Event) : Notification :=
  { title := event.title
    body := event.startTime ++ " - " ++
      (match entities.find? (fun e => e.id == some event.entityId) with
       | none => ""
       | some entity => entity.name) }

/-- One run of the timer callback at the instant `now`: the notifications it
creates, in the order of `allEvents`. -/
def tick (now : Int) (allEvents : List Event) (entities : List Entity) : List Notification :=
  (allEvents.filter fun event => notifies now event).map (notificationOf entities)

/-! ## Recurrence -/

/-- An event without its recurrence tag. -/
def eraseRecurrence (event : Event) : Event :=
  { event with recurrence := none }

/-- A month cell with its events without their recurrence tags. -/
def MonthCell.eraseRecurrence (cell : MonthCell) : MonthCell :=
  { cell with shown := cell.shown.map Calendario.eraseRecurrence }

/-- A timeline column with its events without their recurrence tags. -/
def eraseColumn (column : Int × List (Event × Option Rat × Option Rat)) :
    Int × List (Event × Option Rat × Option Rat) :=
  (column.1, column.2.map fun placed => (eraseRecurrence placed.1, placed.2))

/-- The days of the month grid whose cell holds the event. -/
def cellsHolding (tz : Int) (currentDate : Int) (events : List Event) (event : Event) :
    List Int :=
  (calendarDays currentDate).filter fun day => decide (event ∈ dayEvents tz events day)

/-! ## Statistics in the words of the specification -/

/-- The exact sum of `duration / 60` over the events, when every duration is a
number. -/
def sumHours : List Event → Option Rat
  | [] => some 0
  | e :: es =>
    match e.duration, sumHours es with
    | some d, some rest => some ((d : Rat) / 60 + rest)
    | _, _ => none

/-- The exact sum of `|duration| / 60` over the events. -/
def sumAbsHours : List Event → Rat
  | [] => 0
  | e :: es =>
    (match e.duration with
     | some d => |(d : Rat)| / 60
     | none => 0) + sumAbsHours es

/-- The events of an entity. -/
def eventsOf (events : List Event) (entity : Entity) : List Event :=
  events.filter fun e => some e.entityId == entity.id

/-! ## Hour grid and slot clicks (`CalendarGrid.jsx`, `App.jsx`) -/

/-- date-fns `addMinutes`, on the epoch value of the date: the date
`amount` minutes of elapsed time later. -/
def addMinutes (date amount : Int) : Int := date + amount * 60000

/-- date-fns `addHours`, on the epoch value of the date: the date `amount`
hours of elapsed time later. -/
def addHours (date amount : Int) : Int := date + amount * 3600000

/-- The `while (+currentDate <= endTime)` loop of `eachHourOfInterval`, step 1,
on epoch values.  The fuel bounds the number of rounds; `eachHourLoop_eq`
shows that the loop leaves through its condition before the fuel given by
`eachHourOfInterval` is used up. -/
def eachHourLoop : Nat → Int → Int → List Int
  | 0, _, _ => []
  | fuel + 1, currentDate, endTime =>
    if currentDate ≤ endTime then
      currentDate :: eachHourLoop fuel (addHours currentDate 1) endTime
    else []

/-- `eachHourOfInterval({ start, end })` of date-fns 3, on epoch values: the
hours are listed from the earlier date, cut to its full hour on the local
clock by `setMinutes(0, 0, 0)`, in steps of one hour of elapsed time; a
reversed interval gives the reversed list. -/
def eachHourOfInterval (zone : Zone) (start finish : Int) : List Int :=
  let reversed := decide (finish < start)
  let endTime := if reversed then start else finish
  let currentDate :=
    zone.utc (setMinutes (zone.localTime (if reversed then finish else start)) 0 0 0)
  let dates := eachHourLoop ((endTime - currentDate) / 3600000 + 2).toNat currentDate endTime
  if reversed then dates.reverse else dates

/-- The `hours` of `CalendarGrid`, as local time values: the hours from the
start of the current date to 23 hours 59 minutes of elapsed time later. -/
def hours (zone : Zone) (currentDate : Int) : List Int :=
  let dayStart := zone.utc (startOfDay currentDate)
  (eachHourOfInterval zone dayStart (addMinutes dayStart (23 * 60 + 59))).map zone.localTime

/-- The height in pixels of an hour slot: its class `h-20` (5rem, 80 pixels at
the root font size of 16 pixels), the `80` that the event overlay multiplies
hours by. -/
def slotHeight : Nat := 80

/-- The hour slots of a day column: for each of `hours` its `HH:mm` label and
its height. -/
def hourSlots (zone : Zone) (currentDate : Int) : List (String × Nat) :=
  (hours zone currentDate).map fun hour => (formatHHmm hour, slotHeight)

/-- The height of the hour grid of a day column: its slots stacked. -/
def columnHeight (zone : Zone) (currentDate : Int) : Nat :=
  ((hourSlots zone currentDate).map Prod.snd).sum

/-- The slot clicks of the timeline: `onSlotClick(day, format(hour, 'HH:mm'))`
for every day column and every hour slot. -/
def timelineSlots (zone : Zone) (daysCount : Int) (currentDate : Int) :
    List (Int × String) :=
  (weekDays daysCount currentDate).flatMap fun day =>
    (hours zone currentDate).map fun hour => (day, formatHHmm hour)

/-- The slot clicks of the month view: `onSlotClick(day, '09:00')` for every
cell. -/
def monthSlots (currentDate : Int) : List (Int × String) :=
  (calendarDays currentDate).map fun day => (day, "09:00")

/-- `Number(text)` for a text of decimal digits; the empty text gives 0, and a
text with another character is taken as `NaN` (`none`). -/
def toNumber (text : List Char) : Option Nat :=
  if text.all Char.isDigit then some (ofDigits 10 (text.map fun c => c.toNat - 48))
  else none

/-- The `end` text of `handleSlotClick`:
`String(Number(hours) + 1).padStart(2, '0') + ':' + mins`, where
`[hours, mins] = time.split(':')`; a missing `mins` prints as `undefined`. -/
def slotEnd (time : String) : String :=
  let parts := splitOn ':' time.data
  let hours := (parts.get? 0).getD []
  let mins := match parts.get? 1 with
    | some m => String.mk m
    | none => "undefined"
  (match toNumber hours with
    | some n => padStart 2 (n + 1)
    | none => "NaN") ++ ":" ++ mins

/-- `handleSlotClick(date, time)`: the prefill given to the event form,
`{ date: format(date, 'yyyy-MM-dd'), startTime: time, endTime: end }`. -/
def handleSlotClick (date : Int) (time : String) : InitialData :=
  InitialData.slot (formatDate date) time (slotEnd time)

/-! ## Entity selection (`store.js`, `App.jsx`) -/

/-- `toggleEntityFilter(entityId)`, as a function of the selection:
`includes(entityId) ? filter(id => id !== entityId) : [...selectedEntities, entityId]`. -/
def toggleEntityFilter (selectedEntities : List Nat) (entityId : Nat) : List Nat :=
  if selectedEntities.contains entityId then
    selectedEntities.filter fun id => id != entityId
  else selectedEntities ++ [entityId]

/-- The `checked` of the checkbox of an entity:
`selectedEntities.length === 0 || selectedEntities.includes(entity.id)`. -/
def checkboxChecked (selectedEntities : List Nat) (entity : Entity) : Bool :=
  selectedEntities.length == 0 ||
    (match entity.id with
     | some id => selectedEntities.contains id
     | none => false)

/-! ## Percentages of the dashboard and timer ticks -/

/-- `Math.round(x)` for a double `x`: the nearest integer, a tie going up. -/
def mathRound (x : Rat) : Int := ⌊x + 1 / 2⌋

/-- `Math.round((stats.modeData[i].value / stats.total) * 100)`, the division
and the product in doubles; `none` stands for the `NaN` or infinity of a
division by zero. -/
def ratioPercent (s : Stats) (i : Nat) : Option Int :=
  match s.modeData.get? i with
  | none => none
  | some d =>
    if s.total = 0 then none
    else some (mathRound (toDouble (toDouble ((d.value : Rat) / (s.total : Rat)) * 100)))

/-- The two percentages the dashboard body computes: none in the "not enough
data" branch, the online and the presence percentage in the charts branch. -/
def renderedRatios : DashboardBody → Option (Option Int × Option Int)
  | .noData => none
  | .charts s => some (ratioPercent s 0, ratioPercent s 1)

/-- The instants of `count` ticks of `setInterval(callback, 60000)` that come
exactly 60000 ms apart, the first at `first`. -/
def ticks (first : Int) (count : Nat) : List Int :=
  (List.range count).map fun k : Nat => first + (k : Int) * 60000

/-! ## The scenario of the specification -/

/-- The form filled in for the scenario: 2024-03-05, 09:00 to 10:30, entity 1,
online. -/
def scenarioForm : FormData :=
  { title := "Riunione", date := "2024-03-05", startTime := "09:00", endTime := "10:30"
    mode := .online, location := "", meetingUrl := "", entityId := .option 1
    materials := "", notes := "", recurrence := .none
    id := none, duration := none, createdAt := none, updatedAt := none }

/-- The scenario event as stored under key 1 at time 1000. -/
def scenarioEvent : Event :=
  { id := some 1, title := "Riunione", date := "2024-03-05"
    startTime := "09:00", endTime := "10:30", duration := some 90
    mode := .online, location := some "", meetingUrl := some "", entityId := 1
    materials := some "", notes := some "", recurrence := some .none
    createdAt := 1000, updatedAt := 1000 }

/-- The local midnight of 2024-03-05 (day number 19787). -/
def march5 : Int := makeDate 19787 0

/-- The local midnight of 2024-03-04. -/
def march4 : Int := makeDate 19786 0

/-- The day number that a date text names, when it is a date. -/
def isoDay (dateStr : String) : Option Int :=
  (parseDate 0 dateStr).map day

/-- The scenario entity. -/
def scenarioEntity : Entity :=
  { id := some 1, name := "Work", color := "#1976D2" }

/-- Another entity, the only one left once the scenario entity is deleted. -/
def otherEntity : Entity :=
  { id := some 2, name := "Personale", color := "#388E3C" }

/-- The scenario form switched to presence, with no location given. -/
def presenceForm : FormData :=
  { scenarioForm with mode := .presence }

/-- The scenario form with its two times exchanged: 10:30 to 09:00. -/
def backwardForm : FormData :=
  { scenarioForm with startTime := "10:30", endTime := "09:00" }

/-- The scenario event tagged as recurring every day. -/
def dailyEvent : Event :=
  { scenarioEvent with recurrence := some .daily }


/-- The scenario event under an upper-case title with an accented letter. -/
def caffeEvent : Event :=
  { scenarioEvent with title := "CAFFÈ" }

/-- Ten in the morning of 2024-03-31 (day number 19813) on the local clock, the
day Europe/Rome changes to summer time. -/
def march31 : Int := makeDate 19813 (10 * 3600000)

/-- The scenario form with times on either side of the skipped hour: 01:30
to 03:30. -/
def springForm : FormData :=
  { scenarioForm with startTime := "01:30", endTime := "03:30" }

/-- The scenario form with a start inside the skipped hour: 02:30 to 03:00. -/
def gapForm : FormData :=
  { scenarioForm with startTime := "02:30", endTime := "03:00" }

/-- The times of `springForm` exchanged: 03:30 to 01:30. -/
def springBackwardForm : FormData :=
  { scenarioForm with startTime := "03:30", endTime := "01:30" }

/-- The times of `gapForm` exchanged: 03:00 to 02:30. -/
def gapBackwardForm : FormData :=
  { scenarioForm with startTime := "03:00", endTime := "02:30" }
/-! ## Lemmas and theorems -/

theorem includesChars_iff (s t : List Char) :
    includesChars s t = true ↔ List.IsInfix t s := by
  induction s with
  | nil =>
    cases t <;> simp [includesChars]
  | cons c cs ih =>
    simp only [includesChars, Bool.or_eq_true, List.isPrefixOf_iff_prefix, ih]
    exact (List.infix_cons_iff).symm

theorem matchesSearch_iff (toLowerCase : String → String)
    (hempty : toLowerCase "" = "") (searchQuery : String) (e : Event) :
    matchesSearch toLowerCase searchQuery e = true ↔
      (searchQuery = "" ∨
        List.IsInfix (toLowerCase searchQuery).data (toLowerCase e.title).data ∨
        ∃ notes, e.notes = some notes ∧
          List.IsInfix (toLowerCase searchQuery).data (toLowerCase notes).data) := by
  unfold matchesSearch includes
  cases hn : e.notes with
  | none =>
    simp [includesChars_iff]
  | some notes =>
    simp only [Bool.or_eq_true, beq_iff_eq, includesChars_iff, Bool.and_eq_true,
      bne_iff_ne, ne_eq, Option.some.injEq, exists_eq_left', or_assoc]
    constructor
    · rintro (h | h | ⟨_, h⟩)
      · exact Or.inl h
      · exact Or.inr (Or.inl h)
      · exact Or.inr (Or.inr h)
    · rintro (h | h | h)
      · exact Or.inl h
      · exact Or.inr (Or.inl h)
      · by_cases hne : notes = ""
        · subst hne
          have h0 : (toLowerCase searchQuery).data = [] := by
            rw [hempty] at h
            exact List.eq_nil_of_infix_nil h
          refine Or.inr (Or.inl ?_)
          rw [h0]
          exact List.nil_infix
        · exact Or.inr (Or.inr ⟨hne, h⟩)

/-- C1: for every case mapping that sends the empty text to the empty text
(as `toLowerCase` does), the event filter keeps events in their input order,
and an event is kept exactly when (the selection is empty or holds its
entityId) and (the search text is empty or occurs, lower-cased, in the
lower-cased title or notes). -/
theorem filteredEvents_keeps_iff (toLowerCase : String → String)
    (hempty : toLowerCase "" = "") (allEvents : List Event)
    (selectedEntities : List Nat) (searchQuery : String) :
    List.Sublist (filteredEvents toLowerCase allEvents selectedEntities searchQuery)
      allEvents ∧
    ∀ e : Event, e ∈ filteredEvents toLowerCase allEvents selectedEntities searchQuery ↔
      e ∈ allEvents ∧
      (selectedEntities = [] ∨ e.entityId ∈ selectedEntities) ∧
      (searchQuery = "" ∨
        List.IsInfix (toLowerCase searchQuery).data (toLowerCase e.title).data ∨
        ∃ notes, e.notes = some notes ∧
          List.IsInfix (toLowerCase searchQuery).data (toLowerCase notes).data) := by
  refine ⟨List.filter_sublist _, fun e => ?_⟩
  unfold filteredEvents
  rw [List.mem_filter, Bool.and_eq_true, matchesSearch_iff toLowerCase hempty]
  unfold matchesEntity
  simp [List.length_eq_zero]

theorem filteredEvents_keeps_iff_witness :
    lowerLatin1 "" = "" ∧
    filteredEvents lowerLatin1 [caffeEvent, scenarioEvent] [] "caffè" = [caffeEvent] ∧
    (caffeEvent ∈ filteredEvents lowerLatin1 [caffeEvent, scenarioEvent] [] "caffè" ↔
      caffeEvent ∈ [caffeEvent, scenarioEvent] ∧
      (([] : List Nat) = [] ∨ caffeEvent.entityId ∈ ([] : List Nat)) ∧
      ("caffè" = "" ∨
        List.IsInfix (lowerLatin1 "caffè").data (lowerLatin1 caffeEvent.title).data ∨
        ∃ notes, caffeEvent.notes = some notes ∧
          List.IsInfix (lowerLatin1 "caffè").data (lowerLatin1 notes).data)) :=
  ⟨rfl, by decide,
    (filteredEvents_keeps_iff lowerLatin1 rfl [caffeEvent, scenarioEvent] [] "caffè").2
      caffeEvent⟩
/-! ### The calendar -/

theorem dayFromYear_succ (y : Int) : dayFromYear (y + 1) = dayFromYear y + daysInYear y := by
  unfold dayFromYear daysInYear
  omega

theorem leapDays_range (y : Int) : 0 ≤ leapDays y ∧ leapDays y ≤ 1 := by
  unfold leapDays
  omega

theorem daysInYear_eq (y : Int) : daysInYear y = 365 + leapDays y := by
  unfold leapDays daysInYear
  omega

/-- The year of a day number starts on or before it and the next year after it. -/
theorem yearFromDay_spec (n : Int) :
    dayFromYear (yearFromDay n) ≤ n ∧ n < dayFromYear (yearFromDay n + 1) := by
  unfold yearFromDay
  simp only []
  split_ifs with h1 h2
  · refine ⟨h1, ?_⟩
    unfold dayFromYear at *
    omega
  · refine ⟨h2, ?_⟩
    omega
  · rw [sub_add_cancel]
    refine ⟨?_, by omega⟩
    unfold dayFromYear at *
    omega

theorem dayFromYear_mono {a b : Int} (h : a ≤ b) : dayFromYear a ≤ dayFromYear b := by
  unfold dayFromYear
  omega

theorem yearFromDay_unique {n y : Int} (h1 : dayFromYear y ≤ n)
    (h2 : n < dayFromYear (y + 1)) : yearFromDay n = y := by
  have hs := yearFromDay_spec n
  by_contra hne
  rcases lt_or_gt_of_ne hne with h | h
  · have := dayFromYear_mono (show yearFromDay n + 1 ≤ y by omega)
    omega
  · have := dayFromYear_mono (show y + 1 ≤ yearFromDay n by omega)
    omega

theorem dayWithinYear_range (n : Int) :
    0 ≤ dayWithinYear n ∧ dayWithinYear n < 365 + inLeapYear n := by
  have hs := yearFromDay_spec n
  have hy := dayFromYear_succ (yearFromDay n)
  have hd := daysInYear_eq (yearFromDay n)
  unfold dayWithinYear inLeapYear
  omega

theorem monthOfYearDay_range (d l : Int) :
    0 ≤ monthOfYearDay d l ∧ monthOfYearDay d l ≤ 11 := by
  unfold monthOfYearDay
  omega

theorem monthFromDay_range (n : Int) : 0 ≤ monthFromDay n ∧ monthFromDay n ≤ 11 :=
  monthOfYearDay_range _ _

theorem monthOfYearDay_lower (d l : Int) (hd : 0 ≤ d) :
    daysBeforeMonth (monthOfYearDay d l) l ≤ d := by
  unfold daysBeforeMonth monthOfYearDay
  omega

theorem monthOfYearDay_upper (d l : Int) (hl : 0 ≤ l ∧ l ≤ 1) (hd : d < 365 + l) :
    monthOfYearDay d l = 11 ∨ d < daysBeforeMonth (monthOfYearDay d l + 1) l := by
  unfold daysBeforeMonth monthOfYearDay
  omega

theorem monthOfYearDay_of_mem (d l mn : Int) (h0 : 0 ≤ mn) (h1 : mn ≤ 11)
    (hl : 0 ≤ l ∧ l ≤ 1) (ha : daysBeforeMonth mn l ≤ d)
    (hb : mn = 11 ∨ d < daysBeforeMonth (mn + 1) l) :
    monthOfYearDay d l = mn := by
  have : mn = 0 ∨ mn = 1 ∨ mn = 2 ∨ mn = 3 ∨ mn = 4 ∨ mn = 5 ∨ mn = 6 ∨ mn = 7 ∨ mn = 8
      ∨ mn = 9 ∨ mn = 10 ∨ mn = 11 := by omega
  rcases this with h | h | h | h | h | h | h | h | h | h | h | h <;> subst h <;>
    simp [daysBeforeMonth] at ha hb <;> unfold monthOfYearDay <;> omega

/-- A day number is the day made of its own year, month and date. -/
theorem makeDay_roundtrip (n : Int) :
    makeDay (yearFromDay n) (monthFromDay n) (dateFromDay n) = n := by
  have hr := monthOfYearDay_range (dayWithinYear n) (inLeapYear n)
  unfold makeDay dateFromDay monthFromDay
  simp only []
  have h1 : monthOfYearDay (dayWithinYear n) (inLeapYear n) / 12 = 0 := by omega
  have h2 : monthOfYearDay (dayWithinYear n) (inLeapYear n) % 12
      = monthOfYearDay (dayWithinYear n) (inLeapYear n) := by omega
  rw [h1, h2, add_zero]
  unfold dayWithinYear inLeapYear
  omega

theorem makeDay_of_month_range (y mn k : Int) (h0 : 0 ≤ mn) (h1 : mn ≤ 11) :
    makeDay y mn k = dayFromYear y + daysBeforeMonth mn (leapDays y) + k - 1 := by
  unfold makeDay
  simp only []
  have e1 : mn / 12 = 0 := by omega
  have e2 : mn % 12 = mn := by omega
  rw [e1, e2, add_zero]

theorem makeDay_add (y m k j : Int) : makeDay y m (k + j) = makeDay y m k + j := by
  unfold makeDay
  simp only []
  omega

theorem makeDay_next_month (y mn : Int) (h0 : 0 ≤ mn) (h1 : mn ≤ 11) :
    makeDay y (mn + 1) 0 = dayFromYear y +
      (if mn = 11 then 365 + leapDays y else daysBeforeMonth (mn + 1) (leapDays y)) - 1 := by
  by_cases h : mn = 11
  · subst h
    have hy := dayFromYear_succ y
    have hd := daysInYear_eq y
    simp only [makeDay, if_true]
    norm_num [daysBeforeMonth]
    omega
  · rw [makeDay_of_month_range y (mn + 1) 0 (by omega) (by omega), if_neg h]
    omega

theorem daysBeforeMonth_nonneg (mn l : Int) (hl : 0 ≤ l) : 0 ≤ daysBeforeMonth mn l := by
  unfold daysBeforeMonth
  omega

theorem daysBeforeMonth_le (mn l : Int) (hl : 0 ≤ l ∧ l ≤ 1) :
    daysBeforeMonth mn l ≤ 334 + l := by
  unfold daysBeforeMonth
  omega

/-- The civil date of the `k`-th day of month `mn` of year `y`. -/
theorem civil_of_makeDay (y mn k : Int) (h0 : 0 ≤ mn) (h1 : mn ≤ 11) (hk : 1 ≤ k)
    (hu : makeDay y mn k ≤ makeDay y (mn + 1) 0) :
    yearFromDay (makeDay y mn k) = y ∧ monthFromDay (makeDay y mn k) = mn ∧
      dateFromDay (makeDay y mn k) = k := by
  have hl := leapDays_range y
  have e := makeDay_of_month_range y mn k h0 h1
  have e' := makeDay_next_month y mn h0 h1
  have hnn := daysBeforeMonth_nonneg mn (leapDays y) hl.1
  have hsucc := dayFromYear_succ y
  have hdy := daysInYear_eq y
  have hle := daysBeforeMonth_le (mn + 1) (leapDays y) hl
  have hyear : yearFromDay (makeDay y mn k) = y := by
    apply yearFromDay_unique
    · omega
    · by_cases h11 : mn = 11
      · rw [if_pos h11] at e'; omega
      · rw [if_neg h11] at e'; omega
  have hdwy : dayWithinYear (makeDay y mn k) = daysBeforeMonth mn (leapDays y) + k - 1 := by
    unfold dayWithinYear
    rw [hyear]
    omega
  have hmonth : monthFromDay (makeDay y mn k) = mn := by
    unfold monthFromDay inLeapYear
    rw [hyear, hdwy]
    apply monthOfYearDay_of_mem _ _ _ h0 h1 hl (by omega)
    by_cases h11 : mn = 11
    · exact Or.inl h11
    · rw [if_neg h11] at e'
      exact Or.inr (by omega)
  refine ⟨hyear, hmonth, ?_⟩
  unfold dateFromDay inLeapYear
  rw [hmonth, hyear, hdwy]
  omega

/-- The days of month `mn` of year `y` are those from its first day
`makeDay y mn 1` to its last day `makeDay y (mn + 1) 0`. -/
theorem month_span (y mn n : Int) (h0 : 0 ≤ mn) (h1 : mn ≤ 11) :
    (makeDay y mn 1 ≤ n ∧ n ≤ makeDay y (mn + 1) 0) ↔
      (yearFromDay n = y ∧ monthFromDay n = mn) := by
  constructor
  · rintro ⟨ha, hb⟩
    have hk := makeDay_add y mn 1 (n - makeDay y mn 1)
    have e : makeDay y mn (1 + (n - makeDay y mn 1)) = n := by omega
    have := civil_of_makeDay y mn (1 + (n - makeDay y mn 1)) h0 h1 (by omega) (by omega)
    rw [e] at this
    exact ⟨this.1, this.2.1⟩
  · rintro ⟨hy, hm⟩
    have hr := makeDay_roundtrip n
    have hw := dayWithinYear_range n
    have hlo := monthOfYearDay_lower (dayWithinYear n) (inLeapYear n) hw.1
    have hup := monthOfYearDay_upper (dayWithinYear n) (inLeapYear n)
      (leapDays_range _) hw.2
    have e := makeDay_of_month_range y mn 1 h0 h1
    have e' := makeDay_next_month y mn h0 h1
    unfold monthFromDay at hm
    unfold inLeapYear at *
    unfold dayWithinYear at *
    rw [hm, hy] at hlo hup
    rw [hy] at hw
    constructor
    · omega
    · rcases hup with h | h
      · rw [if_pos h] at e'; omega
      · by_cases h11 : mn = 11
        · rw [if_pos h11] at e'; omega
        · rw [if_neg h11] at e'; omega

/-! ### `Date` methods and date-fns in closed form -/

theorem day_makeDate (c tw : Int) (h0 : 0 ≤ tw) (h1 : tw < 86400000) :
    day (makeDate c tw) = c := by
  unfold day makeDate
  omega

theorem timeWithinDay_range (t : Int) : 0 ≤ timeWithinDay t ∧ timeWithinDay t < 86400000 := by
  unfold timeWithinDay
  omega

theorem makeDate_day (t : Int) : makeDate (day t) (timeWithinDay t) = t := by
  unfold makeDate day timeWithinDay
  omega

theorem setDate_getDate_add (t k : Int) :
    setDate t (getDate t + k) = makeDate (day t + k) (timeWithinDay t) := by
  unfold setDate getDate getFullYear getMonth
  rw [makeDay_add, makeDay_roundtrip]

theorem day_setDate (t k : Int) :
    day (setDate t k) = makeDay (getFullYear t) (getMonth t) k := by
  have h := timeWithinDay_range t
  unfold setDate
  exact day_makeDate _ _ h.1 h.2

theorem setHours_zero (t : Int) : setHours t 0 0 0 0 = makeDate (day t) 0 := by
  unfold setHours makeTime
  norm_num

theorem setHours_last (t : Int) : setHours t 23 59 59 999 = makeDate (day t) 86399999 := by
  unfold setHours makeTime
  norm_num

theorem startOfMonth_eq (t : Int) :
    startOfMonth t = makeDate (makeDay (getFullYear t) (getMonth t) 1) 0 := by
  unfold startOfMonth
  rw [setHours_zero, day_setDate]

theorem endOfMonth_eq (t : Int) :
    endOfMonth t = makeDate (makeDay (getFullYear t) (getMonth t + 1) 0) 86399999 := by
  have h := timeWithinDay_range t
  unfold endOfMonth
  simp only []
  rw [setHours_last]
  unfold setFullYear
  rw [day_makeDate _ _ h.1 h.2]

theorem startOfWeek_eq (t : Int) :
    startOfWeek t 1 = makeDate (day t - (weekDay (day t) + 6) % 7) 0 := by
  have h := timeWithinDay_range t
  unfold startOfWeek
  simp only []
  rw [setHours_zero, sub_eq_add_neg (getDate t), setDate_getDate_add,
    day_makeDate _ _ h.1 h.2]
  unfold getDay weekDay
  congr 1
  omega

theorem endOfWeek_eq (t : Int) :
    endOfWeek t 1 = makeDate (day t + (7 - weekDay (day t)) % 7) 86399999 := by
  have h := timeWithinDay_range t
  unfold endOfWeek
  simp only []
  rw [setHours_last, setDate_getDate_add, day_makeDate _ _ h.1 h.2]
  unfold getDay weekDay
  congr 1
  omega

theorem addDays_eq (t k : Int) : addDays t k = makeDate (day t + k) (timeWithinDay t) := by
  unfold addDays
  split_ifs with h
  · subst h
    rw [add_zero, makeDate_day]
  · exact setDate_getDate_add t k

/-- With more fuel than days left, the loop lists the local midnights from
day `c` to the day of `endTime`, and stops there by its own condition. -/
theorem eachDayLoop_eq (fuel : Nat) (endTime : Int) :
    ∀ c : Int, (day endTime - c + 1).toNat < fuel →
      eachDayLoop fuel (makeDate c 0) endTime =
        (List.range (day endTime - c + 1).toNat).map fun i : Nat => makeDate (c + i) 0 := by
  induction fuel with
  | zero => intro c h; omega
  | succ fuel ih =>
    intro c h
    unfold eachDayLoop
    have hstep : setHours (setDate (makeDate c 0) (getDate (makeDate c 0) + 1)) 0 0 0 0
        = makeDate (c + 1) 0 := by
      rw [setHours_zero, setDate_getDate_add, day_makeDate c 0 (by omega) (by omega)]
      rw [day_makeDate _ _ (timeWithinDay_range _).1 (timeWithinDay_range _).2]
    rw [hstep]
    by_cases hc : makeDate c 0 ≤ endTime
    · have hle : c ≤ day endTime := by
        unfold makeDate at hc
        unfold day
        omega
      rw [if_pos hc, ih (c + 1) (by omega)]
      have e : (day endTime - c + 1).toNat = (day endTime - (c + 1) + 1).toNat + 1 := by
        omega
      rw [e, List.range_succ_eq_map]
      simp only [List.map_cons, List.map_map]
      refine congrArg₂ _ (by simp) ?_
      apply List.map_congr_left
      intro i _
      simp only [Function.comp, Nat.succ_eq_add_one, Nat.cast_add, Nat.cast_one]
      congr 1
      omega
    · have hlt : day endTime < c := by
        unfold makeDate at hc
        unfold day
        omega
      rw [if_neg hc]
      have e : (day endTime - c + 1).toNat = 0 := by omega
      rw [e]
      rfl

/-- For `start ≤ finish`, `eachDayOfInterval` is the list of the local
midnights of the days from the day of `start` to the day of `finish`. -/
theorem eachDayOfInterval_eq (start finish : Int) (h : start ≤ finish) :
    eachDayOfInterval start finish =
      (List.range (day finish - day start + 1).toNat).map
        fun i : Nat => makeDate (day start + i) 0 := by
  unfold eachDayOfInterval
  have hlt : ¬ finish < start := by omega
  simp only [hlt, decide_False, Bool.false_eq_true, if_false]
  rw [setHours_zero]
  apply eachDayLoop_eq
  unfold makeDate day
  omega
/-! ### Month grid and timeline columns -/

/-- C5: the month grid is the run of consecutive local midnights of `7 * w`
days (`w > 0`) from day `a`; `first` and `last` bound exactly the days of the
reference month; day `a` is the Monday on or before `first`, the last cell is
the Sunday on or after `last`, and every day of the reference month is in the
grid exactly once. -/
theorem calendarDays_month_grid (currentDate : Int) :
    ∃ (a : Int) (w : Nat) (first last : Int),
      calendarDays currentDate =
        (List.range (7 * w)).map (fun i : Nat => makeDate (a + i) 0) ∧
      0 < w ∧
      (∀ n : Int, (first ≤ n ∧ n ≤ last) ↔
        (yearFromDay n = getFullYear currentDate ∧
          monthFromDay n = getMonth currentDate)) ∧
      getDay (makeDate a 0) = 1 ∧ a ≤ first ∧ first < a + 7 ∧
      getDay (makeDate (a + 7 * w - 1) 0) = 0 ∧
      last ≤ a + 7 * w - 1 ∧ a + 7 * w - 1 < last + 7 ∧
      ∀ n : Int, yearFromDay n = getFullYear currentDate →
        monthFromDay n = getMonth currentDate →
        List.count (makeDate n 0) (calendarDays currentDate) = 1 := by
  -- the reference month
  have hm := monthFromDay_range (day currentDate)
  have hspan := fun n =>
    month_span (getFullYear currentDate) (getMonth currentDate) n hm.1 hm.2
  generalize hfirst :
    makeDay (getFullYear currentDate) (getMonth currentDate) 1 = first at hspan
  generalize hlast :
    makeDay (getFullYear currentDate) (getMonth currentDate + 1) 0 = last at hspan
  have hcur := (hspan (day currentDate)).2 ⟨rfl, rfl⟩
  have hfl : first ≤ last := le_trans hcur.1 hcur.2
  have hcivil := (hspan first).1 ⟨le_refl _, hfl⟩
  -- the four dates computed by `renderMonthView`
  have hms : startOfMonth currentDate = makeDate first 0 := by
    rw [startOfMonth_eq, hfirst]
  have hdf : day (makeDate first 0) = first := day_makeDate _ _ (by omega) (by omega)
  have hme : endOfMonth (makeDate first 0) = makeDate last 86399999 := by
    rw [endOfMonth_eq]
    unfold getFullYear getMonth
    rw [hdf, hcivil.1, hcivil.2, hlast]
  have hdl : day (makeDate last 86399999) = last :=
    day_makeDate _ _ (by omega) (by omega)
  have hsd : startOfWeek (makeDate first 0) 1
      = makeDate (first - (weekDay first + 6) % 7) 0 := by
    rw [startOfWeek_eq, hdf]
  have hed : endOfWeek (makeDate last 86399999) 1
      = makeDate (last + (7 - weekDay last) % 7) 86399999 := by
    rw [endOfWeek_eq, hdl]
  generalize ha : first - (weekDay first + 6) % 7 = a at hsd
  generalize hb : last + (7 - weekDay last) % 7 = b at hed
  have hwa : weekDay a = 1 := by
    unfold weekDay at *
    omega
  have hwb : weekDay b = 0 := by
    unfold weekDay at *
    omega
  have hlen : ∃ w : Nat, 0 < w ∧ (b - a + 1).toNat = 7 * w := by
    refine ⟨((b - a + 1) / 7).toNat, ?_, ?_⟩ <;>
    · unfold weekDay at *
      omega
  obtain ⟨w, hw0, hw⟩ := hlen
  have hbw : b = a + 7 * w - 1 := by
    unfold weekDay at *
    omega
  have hgrid : calendarDays currentDate =
      (List.range (7 * w)).map (fun i : Nat => makeDate (a + i) 0) := by
    unfold calendarDays
    simp only []
    rw [hms, hme, hsd, hed, eachDayOfInterval_eq _ _ (by unfold makeDate; omega),
      day_makeDate a 0 (by omega) (by omega),
      day_makeDate b 86399999 (by omega) (by omega), hw]
  refine ⟨a, w, first, last, hgrid, hw0, hspan, ?_, ?_, ?_, ?_, ?_, ?_, ?_⟩
  · unfold getDay
    rw [day_makeDate _ _ (by omega) (by omega)]
    exact hwa
  · unfold weekDay at *
    omega
  · unfold weekDay at *
    omega
  · unfold getDay
    rw [day_makeDate _ _ (by omega) (by omega), ← hbw]
    exact hwb
  · unfold weekDay at *
    omega
  · unfold weekDay at *
    omega
  · intro n hy hmn
    have hn := (hspan n).2 ⟨hy, hmn⟩
    rw [hgrid]
    apply List.count_eq_one_of_mem
    · apply List.Nodup.map _ (List.nodup_range _)
      intro i j hij
      simp only [makeDate] at hij
      omega
    · rw [List.mem_map]
      refine ⟨(n - a).toNat, ?_, ?_⟩
      · rw [List.mem_range]
        unfold weekDay at *
        omega
      · congr 1
        unfold weekDay at *
        omega

/-- C9: in day mode the timeline has the one column of the reference date;
in week mode it has the seven consecutive days from the Monday `a` on or
before the reference date, the reference date among them. -/
theorem weekDays_columns (currentDate : Int) :
    weekDays 1 currentDate = [startOfDay currentDate] ∧
    ∃ a : Int,
      weekDays 7 currentDate = (List.range 7).map (fun i : Nat => makeDate (a + i) 0) ∧
      getDay (makeDate a 0) = 1 ∧ a ≤ day currentDate ∧ day currentDate < a + 7 ∧
      startOfDay currentDate ∈ weekDays 7 currentDate := by
  constructor
  · unfold weekDays
    simp only [if_true, sub_self]
    rw [addDays_eq, add_zero, makeDate_day, eachDayOfInterval_eq _ _ (le_refl _)]
    have e : (day currentDate - day currentDate + 1).toNat = 1 := by omega
    rw [e, show List.range 1 = [0] from rfl]
    simp [startOfDay, setHours_zero]
  · have hk : weekDays 7 currentDate = (List.range 7).map
        (fun i : Nat => makeDate (day currentDate - (weekDay (day currentDate) + 6) % 7 + i) 0) := by
      unfold weekDays
      simp only [show ¬ ((7 : Int) = 1) by decide, if_false]
      have hd0 : ∀ c : Int, day (makeDate c 0) = c := fun c =>
        day_makeDate c 0 (by omega) (by omega)
      have ht0 : ∀ c : Int, timeWithinDay (makeDate c 0) = 0 := by
        intro c
        unfold timeWithinDay makeDate
        omega
      rw [startOfWeek_eq, addDays_eq, ht0, hd0,
        eachDayOfInterval_eq _ _ (by unfold makeDate; omega), hd0, hd0]
      have e : (day currentDate - (weekDay (day currentDate) + 6) % 7 + (7 - 1)
          - (day currentDate - (weekDay (day currentDate) + 6) % 7) + 1).toNat = 7 := by
        omega
      rw [e]
    refine ⟨day currentDate - (weekDay (day currentDate) + 6) % 7, hk, ?_, ?_, ?_, ?_⟩
    · unfold getDay
      rw [day_makeDate _ _ (by omega) (by omega)]
      unfold weekDay
      omega
    · omega
    · omega
    · rw [hk, List.mem_map]
      refine ⟨((weekDay (day currentDate) + 6) % 7).toNat, ?_, ?_⟩
      · rw [List.mem_range]
        omega
      · rw [startOfDay, setHours_zero]
        congr 1
        omega

/-! ### Times as text -/

theorem padStart_two_data (n : Nat) (h : n < 100) :
    (padStart 2 n).data = [digitChar (n / 10), digitChar (n % 10)] := by
  interval_cases n <;> rfl

theorem timeText_data (hour min : Nat) (hh : hour < 100) (hm : min < 100) :
    (timeText hour min).data =
      [digitChar (hour / 10), digitChar (hour % 10), ':',
        digitChar (min / 10), digitChar (min % 10)] := by
  unfold timeText
  simp only [String.data_append, padStart_two_data hour hh, padStart_two_data min hm]
  rfl

theorem digitChar_isDigit (k : Nat) (h : k < 10) :
    (digitChar k).isDigit = true ∧ (digitChar k).toNat - 48 = k ∧ digitChar k ≠ ':' := by
  interval_cases k <;> decide

theorem parseInt_two_digits (a b : Nat) (ha : a < 10) (hb : b < 10) :
    parseInt [digitChar a, digitChar b] = some ((a * 10 + b : Nat) : Int) := by
  interval_cases a <;> interval_cases b <;> rfl

theorem splitOn_timeText (hour min : Nat) (hh : hour < 100) (hm : min < 100) :
    splitOn ':' (timeText hour min).data =
      [[digitChar (hour / 10), digitChar (hour % 10)],
        [digitChar (min / 10), digitChar (min % 10)]] := by
  rw [timeText_data hour min hh hm]
  have h1 := (digitChar_isDigit (hour / 10) (by omega)).2.2
  have h2 := (digitChar_isDigit (hour % 10) (by omega)).2.2
  have h3 := (digitChar_isDigit (min / 10) (by omega)).2.2
  have h4 := (digitChar_isDigit (min % 10) (by omega)).2.2
  simp [splitOn, h1, h2, h3, h4]

/-- The two `parseInt` of a timeline event read back the hour and the minute
of an `HH:mm` text. -/
theorem parseIntAt_timeText (hour min : Nat) (hh : hour < 100) (hm : min < 100) :
    parseIntAt (splitOn ':' (timeText hour min).data) 0 = some (hour : Int) ∧
    parseIntAt (splitOn ':' (timeText hour min).data) 1 = some (min : Int) := by
  rw [splitOn_timeText hour min hh hm]
  simp only [parseIntAt, List.get?, parseInt_two_digits _ _ (show hour / 10 < 10 by omega)
    (Nat.mod_lt _ (by decide)), parseInt_two_digits _ _ (show min / 10 < 10 by omega)
    (Nat.mod_lt _ (by decide))]
  constructor
  · congr 2; omega
  · congr 2; omega

/-- Reading an `HH:mm` text with date-fns gives back the hour and the minute. -/
theorem parseHHmm_timeText (hour min : Nat) (hh : hour ≤ 23) (hm : min ≤ 59) :
    parseHHmm (timeText hour min).data = some (hour, min) := by
  rw [timeText_data hour min (by omega) (by omega)]
  obtain ⟨a1, a2, _⟩ := digitChar_isDigit (hour / 10) (by omega)
  obtain ⟨b1, b2, _⟩ := digitChar_isDigit (hour % 10) (by omega)
  obtain ⟨c1, c2, _⟩ := digitChar_isDigit (min / 10) (by omega)
  obtain ⟨d1, d2, _⟩ := digitChar_isDigit (min % 10) (by omega)
  have e1 : hour / 10 * 10 + hour % 10 = hour := by omega
  have e2 : min / 10 * 10 + min % 10 = min := by omega
  simp [parseHHmm, takeTwoDigits, a1, a2, b1, b2, c1, c2, d1, d2, e1, e2, hh, hm]

theorem parse_timeText (hour min : Nat) (hh : hour ≤ 23) (hm : min ≤ 59) (today : Int) :
    parse (timeText hour min) today =
      some (makeDate (day today) ((hour : Int) * 3600000 + (min : Int) * 60000)) := by
  unfold parse
  rw [parseHHmm_timeText hour min hh hm]
  simp only [setMinutes, setHours, getHours, makeTime]
  have hd : day (makeDate (day today) ((hour : Int) * 3600000 + 0 * 60000 + 0 * 1000 + 0))
      = day today := day_makeDate _ _ (by omega) (by omega)
  rw [hd]
  congr 2
  unfold timeWithinDay makeDate
  omega

/-! ### The event form -/

theorem mem_insertByKey (record x : Event) (l : List Event) :
    x ∈ insertByKey record l ↔ x = record ∨ x ∈ l := by
  induction l with
  | nil => simp [insertByKey]
  | cons e es ih =>
    unfold insertByKey
    split_ifs
    · simp
    · simp only [List.mem_cons, ih]
      tauto

/-- Every record found after the write of `handleSubmit` was there before or
carries the properties of the written event, but for its key. -/
theorem persist_records (initialData : Option InitialData) (event : Event) (db : Db) :
    ∀ e ∈ (persist initialData event db).2.events,
      e ∈ db.events ∨ ∃ key, e = { event with id := some key } := by
  intro e he
  unfold persist at he
  split at he
  · simp only [Db.update, List.mem_map] at he
    obtain ⟨x, hx, rfl⟩ := he
    split_ifs
    · exact Or.inr ⟨_, rfl⟩
    · exact Or.inl hx
  · cases hadd : db.add event with
    | none =>
      rw [hadd] at he
      exact Or.inl he
    | some db' =>
      rw [hadd] at he
      simp only at he
      unfold Db.add at hadd
      cases hid : event.id with
      | none =>
        rw [hid] at hadd
        simp only [Option.some.injEq] at hadd
        subst hadd
        rcases (mem_insertByKey _ _ _).1 he with h | h
        · exact Or.inr ⟨_, h⟩
        · exact Or.inl h
      | some key =>
        rw [hid] at hadd
        simp only at hadd
        split_ifs at hadd
        simp only [Option.some.injEq] at hadd
        subst hadd
        rcases (mem_insertByKey _ _ _).1 he with h | h
        · refine Or.inr ⟨key, ?_⟩
          rw [h, ← hid]
        · exact Or.inl h

/-- C2: with an empty title or an unset entity, `handleSubmit` stops at its
guard: the table after the call is the table before it, so it has the same
size. -/
theorem handleSubmit_rejects (zone : Zone) (formData : FormData)
    (initialData : Option InitialData) (today : Int) (now : Nat) (db : Db)
    (h : formData.title = "" ∨ formData.entityId = EntityChoice.unset) :
    handleSubmit zone formData initialData today now db = (Outcome.rejected, db) ∧
    (handleSubmit zone formData initialData today now db).2.events.length
      = db.events.length := by
  have hg : formData.title = "" ∨ formData.entityId.falsy = true := by
    rcases h with h | h
    · exact Or.inl h
    · exact Or.inr (by rw [h]; rfl)
  have e : handleSubmit zone formData initialData today now db = (Outcome.rejected, db) := by
    unfold handleSubmit
    rw [if_pos hg]
  exact ⟨e, by rw [e]⟩

theorem handleSubmit_rejects_witness :
    ((initialFormData 0).title = "" ∨ (initialFormData 0).entityId = EntityChoice.unset) ∧
    handleSubmit romeSpring2024 (initialFormData 0) none 0 0 { events := [], nextId := 1 }
      = (Outcome.rejected, { events := [], nextId := 1 }) :=
  ⟨Or.inl rfl,
    (handleSubmit_rejects romeSpring2024 (initialFormData 0) none 0 0
      { events := [], nextId := 1 } (Or.inl rfl)).1⟩

/-- The difference of the two parsed times is a whole number of minutes. -/
theorem submitDuration_exact (zone : Zone) (formData : FormData) (today : Int)
    (start finish : Int)
    (hs : parse formData.startTime today = some start)
    (hf : parse formData.endTime today = some finish) :
    submitDuration zone formData today
      = some ((zone.utc finish - zone.utc start) / (1000 * 60)) ∧
    (zone.utc finish - zone.utc start) % (1000 * 60) = 0 := by
  refine ⟨by unfold submitDuration; rw [hs, hf], ?_⟩
  unfold parse at hs hf
  split at hs
  · exact absurd hs (by simp)
  · split at hf
    · exact absurd hf (by simp)
    · simp only [Option.some.injEq] at hs hf
      have hs0 : start % 60000 = 0 := by
        rw [← hs]
        simp only [setMinutes, setHours, makeDate, makeTime]
        omega
      have hf0 : finish % 60000 = 0 := by
        rw [← hf]
        simp only [setMinutes, setHours, makeDate, makeTime]
        omega
      unfold Zone.utc
      omega

theorem parse_timeOfDay (hour min : Nat) (hh : hour ≤ 23) (hm : min ≤ 59) (today : Int) :
    parse (timeText hour min) today = some (timeOfDay today hour min) :=
  parse_timeText hour min hh hm today

/-- For `HH:mm` texts the stored duration is the difference on the clock
less the change of UTC offset between the two times on the day of saving. -/
theorem submitDuration_timeText (zone : Zone) (formData : FormData) (today : Int)
    (sh sm eh em : Nat)
    (hs : formData.startTime = timeText sh sm) (he : formData.endTime = timeText eh em)
    (hsh : sh ≤ 23) (hsm : sm ≤ 59) (heh : eh ≤ 23) (hem : em ≤ 59) :
    submitDuration zone formData today =
      some (((eh : Int) * 60 + (em : Int)) - ((sh : Int) * 60 + (sm : Int))
        - (zone.offsetAtLocal (timeOfDay today eh em)
            - zone.offsetAtLocal (timeOfDay today sh sm))) := by
  unfold submitDuration
  rw [hs, he, parse_timeOfDay sh sm hsh hsm, parse_timeOfDay eh em heh hem]
  simp only [Zone.utc, Option.some.injEq]
  generalize zone.offsetAtLocal (timeOfDay today eh em) = a
  generalize zone.offsetAtLocal (timeOfDay today sh sm) = b
  unfold timeOfDay makeDate
  omega

/-- Where the zone has one UTC offset at both times, the stored duration is
the difference on the clock. -/
theorem submitDuration_same_offset (zone : Zone) (formData : FormData) (today : Int)
    (sh sm eh em : Nat)
    (hs : formData.startTime = timeText sh sm) (he : formData.endTime = timeText eh em)
    (hsh : sh ≤ 23) (hsm : sm ≤ 59) (heh : eh ≤ 23) (hem : em ≤ 59)
    (hoff : zone.offsetAtLocal (timeOfDay today sh sm)
      = zone.offsetAtLocal (timeOfDay today eh em)) :
    submitDuration zone formData today =
      some (((eh : Int) * 60 + (em : Int)) - ((sh : Int) * 60 + (sm : Int))) := by
  rw [submitDuration_timeText zone formData today sh sm eh em hs he hsh hsm heh hem, hoff]
  simp

theorem handleSubmit_runs (zone : Zone) (formData : FormData)
    (initialData : Option InitialData) (today : Int) (now : Nat) (db : Db)
    (htitle : formData.title ≠ "") (hentity : formData.entityId.falsy = false) :
    handleSubmit zone formData initialData today now db
      = persist initialData (submitEvent zone formData today now) db := by
  unfold handleSubmit
  rw [if_neg]
  rintro (h | h)
  · exact htitle h
  · rw [hentity] at h
    exact Bool.false_ne_true h

/-- An input with a title, an entity and `HH:mm` times, the start before the
end, saved where the zone has one UTC offset at both times: it is not stopped
at the guard; the event that is written carries the duration
`(eh * 60 + em) - (sh * 60 + sm)`, which is not negative, and so does every
record the call adds or replaces. -/
theorem handleSubmit_duration_same_offset (zone : Zone) (formData : FormData)
    (initialData : Option InitialData)
    (today : Int) (now : Nat) (db : Db) (sh sm eh em : Nat)
    (htitle : formData.title ≠ "") (hentity : formData.entityId.falsy = false)
    (hs : formData.startTime = timeText sh sm) (he : formData.endTime = timeText eh em)
    (hsh : sh ≤ 23) (hsm : sm ≤ 59) (heh : eh ≤ 23) (hem : em ≤ 59)
    (hlt : sh * 60 + sm < eh * 60 + em)
    (hoff : zone.offsetAtLocal (timeOfDay today sh sm)
      = zone.offsetAtLocal (timeOfDay today eh em)) :
    handleSubmit zone formData initialData today now db
      = persist initialData (submitEvent zone formData today now) db ∧
    (submitEvent zone formData today now).duration
      = some (((eh : Int) * 60 + (em : Int)) - ((sh : Int) * 60 + (sm : Int))) ∧
    (0 : Int) ≤ ((eh : Int) * 60 + (em : Int)) - ((sh : Int) * 60 + (sm : Int)) ∧
    ∀ e ∈ (handleSubmit zone formData initialData today now db).2.events,
      e ∈ db.events ∨
        e.duration = some (((eh : Int) * 60 + (em : Int)) - ((sh : Int) * 60 + (sm : Int))) := by
  have hd := submitDuration_same_offset zone formData today sh sm eh em hs he hsh hsm heh hem
    hoff
  have hrun := handleSubmit_runs zone formData initialData today now db htitle hentity
  have hev : (submitEvent zone formData today now).duration
      = some (((eh : Int) * 60 + (em : Int)) - ((sh : Int) * 60 + (sm : Int))) := hd
  refine ⟨hrun, hev, by omega, ?_⟩
  intro e hmem
  rw [hrun] at hmem
  rcases persist_records _ _ _ e hmem with h | ⟨key, h⟩
  · exact Or.inl h
  · refine Or.inr ?_
    rw [h]
    exact hev

/-- C3, saved in Europe/Rome on 2024-03-31, the day the clock moves from
02:00 to 03:00: the form 01:30 to 03:30 is stored with the duration 60, not
120, and the form 02:30 to 03:00 with the duration -30, a negative number for
a start before the end; the form 01:30 to 03:30 saved on 2024-03-05 is stored
with 120.  The stored duration is the difference on the clock less the
change of UTC offset between the two times on the day of saving; it is the
difference on the clock, and not negative, wherever the zone has one offset at
both times, as every zone without offset changes has. -/
theorem handleSubmit_duration_offset_change :
    (handleSubmit romeSpring2024 springForm none march31 1000
        { events := [], nextId := 1 }).2.events.map
      (fun e => (e.startTime, e.endTime, e.duration)) = [("01:30", "03:30", some 60)] ∧
    (handleSubmit romeSpring2024 gapForm none march31 1000
        { events := [], nextId := 1 }).2.events.map
      (fun e => (e.startTime, e.endTime, e.duration)) = [("02:30", "03:00", some (-30))] ∧
    (handleSubmit romeSpring2024 springForm none march5 1000
        { events := [], nextId := 1 }).2.events.map
      (fun e => (e.startTime, e.endTime, e.duration)) = [("01:30", "03:30", some 120)] ∧
    (∀ (zone : Zone) (formData : FormData) (today : Int) (now : Nat) (sh sm eh em : Nat),
      formData.startTime = timeText sh sm → formData.endTime = timeText eh em →
      sh ≤ 23 → sm ≤ 59 → eh ≤ 23 → em ≤ 59 →
      (submitEvent zone formData today now).duration
        = some (((eh : Int) * 60 + (em : Int)) - ((sh : Int) * 60 + (sm : Int))
            - (zone.offsetAtLocal (timeOfDay today eh em)
                - zone.offsetAtLocal (timeOfDay today sh sm)))) ∧
    (∀ (zone : Zone) (formData : FormData) (initialData : Option InitialData)
        (today : Int) (now : Nat) (db : Db) (sh sm eh em : Nat),
      formData.title ≠ "" → formData.entityId.falsy = false →
      formData.startTime = timeText sh sm → formData.endTime = timeText eh em →
      sh ≤ 23 → sm ≤ 59 → eh ≤ 23 → em ≤ 59 → sh * 60 + sm < eh * 60 + em →
      zone.offsetAtLocal (timeOfDay today sh sm)
        = zone.offsetAtLocal (timeOfDay today eh em) →
      handleSubmit zone formData initialData today now db
        = persist initialData (submitEvent zone formData today now) db ∧
      (submitEvent zone formData today now).duration
        = some (((eh : Int) * 60 + (em : Int)) - ((sh : Int) * 60 + (sm : Int))) ∧
      (0 : Int) ≤ ((eh : Int) * 60 + (em : Int)) - ((sh : Int) * 60 + (sm : Int)) ∧
      ∀ e ∈ (handleSubmit zone formData initialData today now db).2.events,
        e ∈ db.events ∨
          e.duration
            = some (((eh : Int) * 60 + (em : Int)) - ((sh : Int) * 60 + (sm : Int)))) ∧
    (handleSubmit (fixedZone 60) scenarioForm none march5 1000
        { events := [], nextId := 1 }).2.events = [scenarioEvent] := by
  refine ⟨by decide, by decide, by decide, ?_, ?_, by decide⟩
  · intro zone formData today now sh sm eh em hs he hsh hsm heh hem
    exact submitDuration_timeText zone formData today sh sm eh em hs he hsh hsm heh hem
  · intro zone formData initialData today now db sh sm eh em htitle hentity hs he hsh hsm
      heh hem hlt hoff
    exact handleSubmit_duration_same_offset zone formData initialData today now db
      sh sm eh em htitle hentity hs he hsh hsm heh hem hlt hoff

/-- The written event takes both time stamps from the clock, on creation and
on update alike. -/
theorem submitEvent_stamps (zone : Zone) (formData : FormData) (today : Int) (now : Nat) :
    (submitEvent zone formData today now).createdAt = now ∧
    (submitEvent zone formData today now).updatedAt = now :=
  ⟨rfl, rfl⟩

/-- C4, at the stored scenario event (created at 1000) opened for editing and
saved at 5000, in whatever zone: the record under key 1 ends with
`createdAt = 5000`, the old value 1000 is lost; only `updatedAt` should have
moved. -/
theorem handleSubmit_edit_overwrites_createdAt (zone : Zone) :
    scenarioEvent.createdAt = 1000 ∧
    (handleSubmit zone
        (mergeInitialData (initialFormData march5) (some (InitialData.event scenarioEvent)))
        (some (InitialData.event scenarioEvent)) march5 5000
        { events := [scenarioEvent], nextId := 2 }).1 = Outcome.saved ∧
    (handleSubmit zone
        (mergeInitialData (initialFormData march5) (some (InitialData.event scenarioEvent)))
        (some (InitialData.event scenarioEvent)) march5 5000
        { events := [scenarioEvent], nextId := 2 }).2.events.map
      (fun e => (e.id, e.createdAt, e.updatedAt)) = [(some 1, 5000, 5000)] := by
  have hrun := handleSubmit_runs zone
    (mergeInitialData (initialFormData march5) (some (InitialData.event scenarioEvent)))
    (some (InitialData.event scenarioEvent)) march5 5000
    { events := [scenarioEvent], nextId := 2 } (by decide) rfl
  rw [hrun]
  refine ⟨rfl, rfl, rfl⟩
/-! ### Day cells and timeline placement -/

theorem day_add_offset (n tz : Int) (h0 : 0 ≤ tz) (h1 : tz < 1440) :
    day (makeDate n 0 + tz * 60000) = n := by
  unfold day makeDate
  omega

theorem day_sub_offset (n tz : Int) (h0 : -1440 ≤ tz) (h1 : tz < 0) :
    day (makeDate n 0 + tz * 60000) = n - 1 := by
  unfold day makeDate
  omega

theorem parseDate_shift (tz : Int) (dateStr : String) :
    parseDate tz dateStr = (parseDate 0 dateStr).map fun t => t + tz * 60000 := by
  unfold parseDate
  split
  · rfl
  · split_ifs <;> simp

theorem parseDate_zero_midnight (dateStr : String) (t : Int)
    (h : parseDate 0 dateStr = some t) : t = makeDate (day t) 0 := by
  unfold parseDate at h
  split at h
  · exact absurd h (by simp)
  · split_ifs at h
    simp only [Option.some.injEq] at h
    subst h
    unfold makeDate day
    omega

/-- In a zone at or east of UTC the cell of day `n` holds the events whose
date text names day `n`; in a zone west of UTC it holds those whose date text
names day `n + 1`.  In both cases the input order is kept. -/
theorem dayEvents_by_zone (tz : Int) (events : List Event) (n : Int) :
    (0 ≤ tz → tz < 1440 →
      dayEvents tz events (makeDate n 0) = events.filter fun e => isoDay e.date == some n) ∧
    (-1440 ≤ tz → tz < 0 →
      dayEvents tz events (makeDate n 0)
        = events.filter fun e => isoDay e.date == some (n + 1)) := by
  have key : ∀ (k : Int), (∀ m : Int, day (makeDate m 0 + tz * 60000) = m + k) →
      dayEvents tz events (makeDate n 0)
        = events.filter fun e => isoDay e.date == some (n - k) := by
    intro k hk
    unfold dayEvents
    apply List.filter_congr
    intro e _
    rw [parseDate_shift]
    unfold isoDay
    cases hp : parseDate 0 e.date with
    | none => simp [isSameDay]
    | some t =>
      have hmid := parseDate_zero_midnight _ _ hp
      simp only [Option.map_some', isSameDay, startOfDay, setHours_zero]
      rw [hmid, hk, day_makeDate _ _ (by omega) (by omega),
        day_makeDate _ _ (by omega) (by omega)]
      simp only [makeDate, beq_eq_decide, Option.some.injEq, decide_eq_decide]
      constructor <;> intro h <;> omega
  constructor
  · intro h0 h1
    have := key 0 (fun m => by rw [day_add_offset m tz h0 h1, add_zero])
    simpa using this
  · intro h0 h1
    have := key (-1) (fun m => by rw [day_sub_offset m tz h0 h1]; ring)
    simpa [sub_neg_eq_add] using this

/-- C6, in a zone five hours west of UTC (`tz = -300`): the scenario event is
dated 2024-03-05, the cell of 2024-03-05 is in the month grid and carries that
date, yet the cell holds no event; the event is held by the cell of
2024-03-04. -/
theorem dayEvents_west_of_utc :
    scenarioEvent.date = "2024-03-05" ∧ formatDate march5 = "2024-03-05" ∧
    march5 ∈ calendarDays march5 ∧
    dayEvents (-300) [scenarioEvent] march5 = [] ∧
    dayEvents (-300) [scenarioEvent] march4 = [scenarioEvent] := by
  refine ⟨rfl, by decide, by decide, by decide, by decide⟩

/-- C7: a month cell renders the first `min n 4` of its `n` events, in order;
the remainder line is there exactly when `n > 4` and then counts `n - 4`;
rendered and counted events add up to `n`.  Every cell of the month view is
made this way from the events of its day. -/
theorem cell_shown_and_more :
    (∀ dayEvents : List Event,
      cellShown dayEvents = dayEvents.take (min dayEvents.length 4) ∧
      (cellShown dayEvents).length = min dayEvents.length 4 ∧
      ((cellMore dayEvents).isSome = true ↔ 4 < dayEvents.length) ∧
      (∀ k, cellMore dayEvents = some k → k = dayEvents.length - 4) ∧
      (cellShown dayEvents).length + (cellMore dayEvents).getD 0 = dayEvents.length) ∧
    (∀ (tz currentDate : Int) (events : List Event),
      ∀ cell ∈ renderMonthView tz currentDate events,
        cell.shown = cellShown (dayEvents tz events cell.day) ∧
        cell.more = cellMore (dayEvents tz events cell.day)) := by
  constructor
  · intro dayEvents
    have hshown : cellShown dayEvents = dayEvents.take 4 := by
      simp [cellShown, slice]
    have htake : dayEvents.take (min dayEvents.length 4) = dayEvents.take 4 := by
      rcases Nat.le_total dayEvents.length 4 with h | h
      · rw [min_eq_left h, List.take_of_length_le h, List.take_of_length_le (le_refl _)]
      · rw [min_eq_right h]
    refine ⟨by rw [hshown, htake], ?_, ?_, ?_, ?_⟩
    · rw [hshown, List.length_take, min_comm]
    · unfold cellMore
      split_ifs with h
      · simpa using h
      · simpa using h
    · intro k hk
      unfold cellMore at hk
      split_ifs at hk
      simp only [Option.some.injEq] at hk
      exact hk.symm
    · rw [hshown, List.length_take]
      unfold cellMore
      split_ifs with h
      · simp only [Option.getD_some]
        omega
      · simp only [Option.getD_none]
        omega
  · intro tz currentDate events cell hcell
    unfold renderMonthView at hcell
    rw [List.mem_map] at hcell
    obtain ⟨d, _, rfl⟩ := hcell
    exact ⟨rfl, rfl⟩

/-- C8: a timeline event that starts at `HH:mm` and lasts `d` minutes is put
at `HH * 80 + mm / 60 * 80` pixels from the top with a height of
`d / 60 * 80` pixels. -/
theorem event_top_height (event : Event) (hour min : Nat) (d : Int)
    (hh : hour < 100) (hm : min < 100)
    (hstart : event.startTime = timeText hour min) (hd : event.duration = some d) :
    eventTop event = some ((hour : Rat) * 80 + (min : Rat) / 60 * 80) ∧
    eventHeight event = some ((d : Rat) / 60 * 80) := by
  obtain ⟨p0, p1⟩ := parseIntAt_timeText hour min hh hm
  constructor
  · unfold eventTop
    simp only [hstart, p0, p1, Int.cast_natCast]
  · unfold eventHeight
    rw [hd]
    rfl

theorem event_top_height_witness :
    scenarioEvent.startTime = timeText 9 0 ∧
    eventTop scenarioEvent = some 720 ∧
    eventHeight { scenarioEvent with duration := some 60 } = some 80 := by
  have h := event_top_height { scenarioEvent with duration := some 60 } 9 0 60
    (by decide) (by decide) rfl rfl
  refine ⟨rfl, ?_, ?_⟩
  · have h1 := h.1
    simp only [eventTop] at h1 ⊢
    rw [h1]
    norm_num
  · rw [h.2]
    norm_num

/-! ### Statistics -/

/-- C10: the statistics are `null`, and the dashboard shows its "not enough
data" text instead of the charts, exactly when the event list is empty,
whatever the entities. -/
theorem stats_null_iff_no_events (t : String → String) (today : Int)
    (events : List Event) (entities : List Entity) :
    (stats t today events entities = none ↔ events = []) ∧
    (dashboardBody t today events entities = DashboardBody.noData ↔ events = []) ∧
    (events ≠ [] → ∃ s, stats t today events entities = some s ∧
      s.total = events.length ∧ 0 < s.total) := by
  cases events with
  | nil => simp [stats, dashboardBody]
  | cons e es => simp [stats, dashboardBody]

/-! ### Counts per entity and per mode -/

theorem sum_count_filter_pos (l : List EntityDatum) :
    ((l.filter fun d => d.count > 0).map EntityDatum.count).sum
      = (l.map EntityDatum.count).sum := by
  induction l with
  | nil => rfl
  | cons d ds ih =>
    by_cases h : d.count > 0
    · simp [List.filter_cons, h, ih]
    · have h0 : d.count = 0 := by omega
      simp [List.filter_cons, h, ih, h0]

/-- The counts of `entityData` add up to the counts of all entities. -/
theorem entityData_count_sum (events : List Event) (entities : List Entity) :
    ((entityData events entities).map EntityDatum.count).sum
      = (entities.map fun ent => (eventsOf events ent).length).sum := by
  unfold entityData
  rw [sum_count_filter_pos, List.map_map]
  rfl

theorem sum_ite_eq_length_filter (p : Entity → Bool) (l : List Entity) :
    (l.map fun ent => if p ent = true then 1 else 0).sum = (l.filter p).length := by
  induction l with
  | nil => rfl
  | cons x xs ih =>
    rw [List.map_cons, List.sum_cons, List.filter_cons, ih]
    split_ifs <;> simp [Nat.add_comm]

/-- Counting the matching pairs entity by entity or event by event gives the
same number. -/
theorem sum_length_filter_swap (events : List Event) (entities : List Entity) :
    (entities.map fun ent => (eventsOf events ent).length).sum
      = (events.map fun e =>
          (entities.filter fun ent => some e.entityId == ent.id).length).sum := by
  induction events with
  | nil => simp [eventsOf]
  | cons e es ih =>
    have hstep : ∀ ent : Entity, (eventsOf (e :: es) ent).length
        = (if (some e.entityId == ent.id) = true then 1 else 0) + (eventsOf es ent).length := by
      intro ent
      unfold eventsOf
      rw [List.filter_cons]
      split_ifs <;> simp [Nat.add_comm]
    have hcount := sum_ite_eq_length_filter (fun ent => some e.entityId == ent.id) entities
    simp only [hstep, List.map_cons, List.sum_cons, List.sum_map_add, hcount, ih]

/-- C11 as the code has it: when every event's `entityId` is the id of
exactly one entity of the collection, the per-entity counts of the statistics
add up to the total number of events. -/
theorem entity_counts_sum (t : String → String) (today : Int) (events : List Event)
    (entities : List Entity) (hne : events ≠ [])
    (hone : ∀ e ∈ events,
      (entities.filter fun ent => some e.entityId == ent.id).length = 1) :
    ∃ s, stats t today events entities = some s ∧
      (s.entityData.map EntityDatum.count).sum = s.total := by
  have hlen : ¬ events.length = 0 := by
    intro h
    exact hne (List.length_eq_zero.1 h)
  refine ⟨_, by unfold stats; rw [if_neg hlen], ?_⟩
  simp only []
  rw [entityData_count_sum, sum_length_filter_swap]
  have : (events.map fun e =>
      (entities.filter fun ent => some e.entityId == ent.id).length)
      = events.map fun _ => 1 := by
    apply List.map_congr_left
    intro e he
    exact hone e he
  rw [this]
  simp

theorem entity_counts_sum_witness :
    [scenarioEvent] ≠ [] ∧
    (∀ e ∈ [scenarioEvent],
      ([scenarioEntity, otherEntity].filter fun ent => some e.entityId == ent.id).length = 1) ∧
    ∃ s, stats (fun key => key) march5 [scenarioEvent] [scenarioEntity, otherEntity] = some s ∧
      (s.entityData.map EntityDatum.count).sum = s.total :=
  ⟨by decide, by decide,
    entity_counts_sum (fun key => key) march5 [scenarioEvent] [scenarioEntity, otherEntity]
      (by decide) (by decide)⟩

/-- C11 as stated fails once the scenario entity is deleted: the scenario
event still refers to entity 1, no entry counts it, and the counts add up to
0 while the total is 1. -/
theorem entity_counts_sum_dangling :
    [scenarioEvent] ≠ [] ∧
    ∃ s, stats (fun key => key) march5 [scenarioEvent] [otherEntity] = some s ∧
      (s.entityData.map EntityDatum.count).sum = 0 ∧ s.total = 1 ∧
      (s.entityData.map EntityDatum.count).sum ≠ s.total := by
  refine ⟨by decide, _, rfl, ?_, ?_, ?_⟩
  · rw [entityData_count_sum]
    decide
  · rfl
  · rw [entityData_count_sum]
    decide

/-- C12: the two counts of the mode distribution are the numbers of online
and of presence events and add up to the number of events, which is the total
of the statistics; the scenario event alone gives online 1, presence 0. -/
theorem mode_counts_sum (t : String → String) (today : Int) (events : List Event)
    (entities : List Entity) :
    modeData t events =
      [ { name := t "online", value := (events.filter fun e => e.mode == Mode.online).length },
        { name := t "presence"
          value := (events.filter fun e => e.mode == Mode.presence).length } ] ∧
    (events.filter fun e => e.mode == Mode.online).length
      + (events.filter fun e => e.mode == Mode.presence).length = events.length ∧
    (∀ s, stats t today events entities = some s →
      s.modeData = modeData t events ∧ s.total = events.length ∧
      ((s.modeData.map ModeDatum.value).sum = s.total)) ∧
    modeData t [scenarioEvent]
      = [{ name := t "online", value := 1 }, { name := t "presence", value := 0 }] := by
  have hsum : (events.filter fun e => e.mode == Mode.online).length
      + (events.filter fun e => e.mode == Mode.presence).length = events.length := by
    induction events with
    | nil => rfl
    | cons e es ih =>
      cases hm : e.mode <;> simp [List.filter_cons, hm] <;> omega
  refine ⟨rfl, hsum, ?_, rfl⟩
  intro s hs
  unfold stats at hs
  split_ifs at hs
  simp only [Option.some.injEq] at hs
  subst hs
  refine ⟨rfl, rfl, ?_⟩
  simp only [modeData, List.map_cons, List.map_nil, List.sum_cons, List.sum_nil, add_zero]
  exact hsum

/-- C16: filtering a filtered list again with the same selection and search
text gives the same list, whatever the case mapping. -/
theorem filteredEvents_idempotent (toLowerCase : String → String)
    (allEvents : List Event) (selectedEntities : List Nat) (searchQuery : String) :
    filteredEvents toLowerCase
        (filteredEvents toLowerCase allEvents selectedEntities searchQuery)
        selectedEntities searchQuery
      = filteredEvents toLowerCase allEvents selectedEntities searchQuery := by
  unfold filteredEvents
  rw [List.filter_filter]
  apply List.filter_congr
  intro e _
  simp

/-! ### Entries per entity and the daily trend -/

theorem roundHalfEven_near (y : Rat) : |(roundHalfEven y : Rat) - y| ≤ 1 / 2 := by
  have h1 := Int.floor_le y
  have h2 := Int.lt_floor_add_one y
  unfold roundHalfEven
  simp only []
  rw [abs_le]
  split_ifs with ha hb hc
  · constructor <;> linarith
  · push_cast; constructor <;> linarith
  · have : y - ⌊y⌋ = 1 / 2 := le_antisymm (not_lt.1 hb) (not_lt.1 ha)
    constructor <;> linarith
  · have : y - ⌊y⌋ = 1 / 2 := le_antisymm (not_lt.1 hb) (not_lt.1 ha)
    push_cast; constructor <;> linarith

theorem toDouble_near (x : Rat) : |toDouble x - x| ≤ |x| / 2 ^ 53 := by
  unfold toDouble
  by_cases hx : x = 0
  · rw [if_pos hx, hx]; simp
  · rw [if_neg hx]
    simp only []
    have hpos : 0 < |x| := abs_pos.2 hx
    have hlog : ((2 : ℕ) : Rat) ^ Int.log 2 |x| ≤ |x| := Int.zpow_log_le_self (by norm_num) hpos
    generalize Int.log 2 |x| = e at hlog ⊢
    have hq : (0 : Rat) < 2 ^ (e - 52) := by positivity
    have hr := roundHalfEven_near (x / 2 ^ (e - 52))
    have e1 : (roundHalfEven (x / 2 ^ (e - 52)) : Rat) * 2 ^ (e - 52) - x
        = ((roundHalfEven (x / 2 ^ (e - 52)) : Rat) - x / 2 ^ (e - 52)) * 2 ^ (e - 52) := by
      field_simp
    rw [e1, abs_mul, abs_of_pos hq]
    have e2 : (2 : Rat) ^ (e - 52) = 2 ^ e / 2 ^ 52 := by
      rw [zpow_sub₀ (by norm_num)]
      norm_num
    have e3 : ((2 : ℕ) : Rat) ^ e = (2 : Rat) ^ e := by norm_num
    rw [e3] at hlog
    have hpe : (0 : Rat) < 2 ^ e := by positivity
    calc |(roundHalfEven (x / 2 ^ (e - 52)) : Rat) - x / 2 ^ (e - 52)| * 2 ^ (e - 52)
        ≤ 1 / 2 * 2 ^ (e - 52) := by
          exact mul_le_mul_of_nonneg_right hr hq.le
      _ = 2 ^ e / 2 ^ 53 := by rw [e2]; ring
      _ ≤ |x| / 2 ^ 53 := by
          apply div_le_div_of_nonneg_right hlog (by positivity)

theorem one_add_pow_bound (u : Rat) (hu : 0 ≤ u) (m : Nat) (hm : (m : Rat) * u ≤ 1) :
    (1 + u) ^ m * (1 - m * u) ≤ 1 := by
  induction m with
  | zero => simp
  | succ m ih =>
    have hm' : (m : Rat) * u ≤ 1 := by
      push_cast at hm
      nlinarith
    have ih' := ih hm'
    have hp : (0 : Rat) ≤ (1 + u) ^ m := by positivity
    have : (1 + u) * (1 - ((m + 1 : ℕ) : Rat) * u) ≤ 1 - m * u := by
      push_cast
      nlinarith [mul_nonneg (by positivity : (0:Rat) ≤ (m : Rat) + 1) (mul_nonneg hu hu)]
    calc (1 + u) ^ (m + 1) * (1 - ((m + 1 : ℕ) : Rat) * u)
        = (1 + u) ^ m * ((1 + u) * (1 - ((m + 1 : ℕ) : Rat) * u)) := by ring
      _ ≤ (1 + u) ^ m * (1 - m * u) := mul_le_mul_of_nonneg_left this hp
      _ ≤ 1 := ih'

theorem one_add_pow_sub_one_le (u : Rat) (hu : 0 ≤ u) (m : Nat) (hm : (m : Rat) * u ≤ 1 / 2) :
    (1 + u) ^ m - 1 ≤ 2 * m * u := by
  have h := one_add_pow_bound u hu m (by linarith)
  have hp : (1 : Rat) ≤ (1 + u) ^ m := one_le_pow₀ (by linarith)
  have hmu : 0 ≤ (m : Rat) * u := by positivity
  nlinarith

theorem addition_step_error (u c A D v S a δ v' : Rat) (hu : 0 ≤ u) (hc : 1 ≤ c) (hA : 0 ≤ A)
    (hSA : |S| ≤ A) (hδ : |δ| ≤ D)
    (hv : |v - S| ≤ (c - 1) * A) (ha : |a - δ| ≤ u * |δ|)
    (hv' : |v' - (v + a)| ≤ u * |v + a|) :
    |v' - (S + δ)| ≤ (c * (1 + u) ^ 2 - 1) * (A + D) := by
  have hD : 0 ≤ D := le_trans (abs_nonneg _) hδ
  have h1 : |a - δ| ≤ u * D := le_trans ha (mul_le_mul_of_nonneg_left hδ hu)
  have hva : |v + a| ≤ c * A + D * (1 + u) := by
    have e : v + a = (v - S) + S + (a - δ) + δ := by ring
    rw [e]
    calc |(v - S) + S + (a - δ) + δ|
        ≤ |v - S| + |S| + |a - δ| + |δ| := by
          refine le_trans (abs_add _ _) ?_
          refine add_le_add_right ?_ _
          refine le_trans (abs_add _ _) ?_
          refine add_le_add_right ?_ _
          exact abs_add _ _
      _ ≤ (c - 1) * A + A + u * D + D := by linarith
      _ = c * A + D * (1 + u) := by ring
  have hsum : |v' - (S + δ)| ≤ u * (c * A + D * (1 + u)) + (c - 1) * A + u * D := by
    have e : v' - (S + δ) = (v' - (v + a)) + (v - S) + (a - δ) := by ring
    rw [e]
    calc |(v' - (v + a)) + (v - S) + (a - δ)|
        ≤ |v' - (v + a)| + |v - S| + |a - δ| := by
          refine le_trans (abs_add _ _) ?_
          refine add_le_add_right ?_ _
          exact abs_add _ _
      _ ≤ u * (c * A + D * (1 + u)) + (c - 1) * A + u * D := by
          have := mul_le_mul_of_nonneg_left hva hu
          linarith
  refine le_trans hsum ?_
  have hcu : 0 ≤ c * u := by positivity
  nlinarith [mul_nonneg hcu hA, mul_nonneg hcu hD, mul_nonneg (mul_nonneg hcu hu) hA,
    mul_nonneg (mul_nonneg hcu hu) hD, mul_nonneg (sub_nonneg.2 hc) hD,
    mul_nonneg (mul_nonneg (sub_nonneg.2 hc) hu) hD,
    mul_nonneg (mul_nonneg (mul_nonneg (sub_nonneg.2 hc) hu) hu) hD]

theorem tenth_of_near_sum (v S : Rat) (k n : Int) (hS : S = (k : Rat) / 60)
    (hn : |(n : Rat) / 10 - v| ≤ 1 / 20) (hv : |v - S| < 1 / 60) :
    |(n : Rat) / 10 - S| ≤ 1 / 20 := by
  subst hS
  rw [abs_le] at hn ⊢
  rw [abs_lt] at hv
  have h1 : ((6 * n - k : Int) : Rat) < 4 := by push_cast; linarith
  have h2 : (-4 : Rat) < ((6 * n - k : Int) : Rat) := by push_cast; linarith
  have h1' : 6 * n - k < 4 := by exact_mod_cast h1
  have h2' : -4 < 6 * n - k := by exact_mod_cast h2
  have h3 : ((6 * n - k : Int) : Rat) ≤ 3 := by exact_mod_cast (show 6 * n - k ≤ 3 by omega)
  have h4 : (-3 : Rat) ≤ ((6 * n - k : Int) : Rat) := by
    exact_mod_cast (show -3 ≤ 6 * n - k by omega)
  push_cast at h3 h4
  constructor <;> linarith

theorem toFixed1_digits (x : Rat) (hx : |x| < 10 ^ 21) :
    ∃ n : Int, toFixed1 x = toDouble ((n : Rat) / 10) ∧ |(n : Rat) / 10 - x| ≤ 1 / 20 := by
  have h1 := Int.floor_le (|x| * 10 + 1 / 2)
  have h2 := Int.lt_floor_add_one (|x| * 10 + 1 / 2)
  unfold toFixed1
  rw [if_neg (not_le.2 hx)]
  by_cases h0 : x < 0
  · refine ⟨-⌊|x| * 10 + 1 / 2⌋, by rw [if_pos h0]; push_cast; ring_nf, ?_⟩
    rw [abs_le]
    rw [abs_of_neg h0] at h1 h2 ⊢
    push_cast
    constructor <;> linarith
  · refine ⟨⌊|x| * 10 + 1 / 2⌋, by rw [if_neg h0]; ring_nf, ?_⟩
    rw [abs_le]
    rw [abs_of_nonneg (not_lt.1 h0)] at h1 h2 ⊢
    constructor <;> linarith

/-- The binary exponent of a positive number between two powers of 2. -/
theorem log_two_eq (x : Rat) (e : Int) (h1 : (2 : Rat) ^ e ≤ x) (h2 : x < 2 ^ (e + 1)) :
    Int.log 2 x = e := by
  have hx : 0 < x := lt_of_lt_of_le (by positivity) h1
  apply le_antisymm
  · have := (Int.lt_zpow_iff_log_lt (b := 2) (by norm_num) hx (x := e + 1)).1
      (by exact_mod_cast h2)
    omega
  · exact (Int.zpow_le_iff_le_log (b := 2) (by norm_num) hx).1 (by exact_mod_cast h1)

theorem toDouble_of_binade (x : Rat) (e : Int) (h1 : (2 : Rat) ^ e ≤ |x|)
    (h2 : |x| < 2 ^ (e + 1)) :
    toDouble x = (roundHalfEven (x / 2 ^ (e - 52)) : Rat) * 2 ^ (e - 52) := by
  have hx : x ≠ 0 := by
    intro h
    rw [h, abs_zero] at h1
    exact absurd h1 (not_le.2 (by positivity))
  unfold toDouble
  rw [if_neg hx, log_two_eq |x| e h1 h2]

theorem toDouble_three_halves : toDouble (3 / 2) = 3 / 2 := by
  rw [toDouble_of_binade (3 / 2) 0 (by norm_num [abs_of_pos]) (by norm_num [abs_of_pos])]
  norm_num [roundHalfEven]

/-- The double of 9 / 60 lies below 3 / 20. -/
theorem toDouble_nine_minutes :
    toDouble (3 / 20) = 5404319552844595 / 36028797018963968 := by
  rw [toDouble_of_binade (3 / 20) (-3) (by norm_num [abs_of_pos]) (by norm_num [abs_of_pos])]
  norm_num [roundHalfEven]

/-- The double written `0.1`. -/
theorem toDouble_one_tenth :
    toDouble (1 / 10) = 3602879701896397 / 36028797018963968 := by
  rw [toDouble_of_binade (1 / 10) (-4) (by norm_num [abs_of_pos]) (by norm_num [abs_of_pos])]
  norm_num [roundHalfEven]

theorem totalHours_snoc (init : List Event) (e : Event) :
    totalHours (init ++ [e])
      = match totalHours init, e.duration with
        | some a, some d => some (toDouble (a + toDouble ((d : Rat) / 60)))
        | _, _ => none := by
  unfold totalHours
  rw [List.foldl_append]
  rfl

theorem sumHours_snoc (init : List Event) (e : Event) :
    sumHours (init ++ [e])
      = match sumHours init, e.duration with
        | some s, some d => some (s + (d : Rat) / 60)
        | _, _ => none := by
  induction init with
  | nil =>
    cases hd : e.duration <;> simp [sumHours, hd]
  | cons x xs ih =>
    rw [List.cons_append, sumHours, ih]
    cases hx : x.duration with
    | none =>
      cases hs : sumHours xs <;> cases hd : e.duration <;> simp [sumHours, hx, hs]
    | some dx =>
      cases hs : sumHours xs <;> cases hd : e.duration <;>
        simp [sumHours, hx, hs, add_assoc]

theorem sumAbsHours_snoc (init : List Event) (e : Event) (d : Int)
    (hd : e.duration = some d) :
    sumAbsHours (init ++ [e]) = sumAbsHours init + |(d : Rat)| / 60 := by
  induction init with
  | nil => simp [sumAbsHours, hd]
  | cons x xs ih =>
    rw [List.cons_append, sumAbsHours, ih, sumAbsHours]
    ring

theorem sumAbsHours_nonneg (l : List Event) : 0 ≤ sumAbsHours l := by
  induction l with
  | nil => exact le_refl _
  | cons x xs ih =>
    unfold sumAbsHours
    cases x.duration with
    | none => simpa using ih
    | some d =>
      have : (0 : Rat) ≤ |(d : Rat)| / 60 := by positivity
      simpa using add_nonneg this ih

theorem sumHours_abs_le (l : List Event) :
    ∀ s, sumHours l = some s → |s| ≤ sumAbsHours l := by
  induction l with
  | nil =>
    intro s hs
    simp only [sumHours, Option.some.injEq] at hs
    subst hs
    simp [sumAbsHours]
  | cons x xs ih =>
    intro s hs
    unfold sumHours at hs
    cases hx : x.duration with
    | none => rw [hx] at hs; exact absurd hs (by simp)
    | some d =>
      cases hr : sumHours xs with
      | none => rw [hx, hr] at hs; exact absurd hs (by simp)
      | some rest =>
        rw [hx, hr] at hs
        simp only [Option.some.injEq] at hs
        subst hs
        unfold sumAbsHours
        rw [hx]
        have h1 := ih rest hr
        have h2 : |(d : Rat) / 60| = |(d : Rat)| / 60 := by
          rw [abs_div]
          norm_num
        calc |(d : Rat) / 60 + rest| ≤ |(d : Rat) / 60| + |rest| := abs_add _ _
          _ ≤ |(d : Rat)| / 60 + sumAbsHours xs := by rw [h2]; linarith

/-- The exact sum is a whole number of minutes over 60. -/
theorem sumHours_minutes (l : List Event) :
    ∀ s, sumHours l = some s → ∃ k : Int, s = (k : Rat) / 60 := by
  induction l with
  | nil =>
    intro s hs
    simp only [sumHours, Option.some.injEq] at hs
    exact ⟨0, by rw [← hs]; simp⟩
  | cons x xs ih =>
    intro s hs
    unfold sumHours at hs
    cases hx : x.duration with
    | none => rw [hx] at hs; exact absurd hs (by simp)
    | some d =>
      cases hr : sumHours xs with
      | none => rw [hx, hr] at hs; exact absurd hs (by simp)
      | some rest =>
        rw [hx, hr] at hs
        simp only [Option.some.injEq] at hs
        obtain ⟨k, hk⟩ := ih rest hr
        refine ⟨d + k, ?_⟩
        rw [← hs, hk]
        push_cast
        ring

theorem sumAbsHours_le (bound : Nat) (l : List Event)
    (h : ∀ e ∈ l, ∃ d : Int, e.duration = some d ∧ |d| ≤ bound) :
    sumAbsHours l ≤ (l.length : Rat) * bound / 60 := by
  induction l with
  | nil => simp [sumAbsHours]
  | cons x xs ih =>
    obtain ⟨d, hd, hb⟩ := h x (List.mem_cons_self _ _)
    have ih' := ih (fun e he => h e (List.mem_cons_of_mem _ he))
    unfold sumAbsHours
    rw [hd]
    have hb' : |(d : Rat)| ≤ (bound : Rat) := by exact_mod_cast hb
    simp only [List.length_cons, Nat.cast_add, Nat.cast_one]
    have e : ((xs.length : Rat) + 1) * bound / 60
        = (bound : Rat) / 60 + (xs.length : Rat) * bound / 60 := by ring
    rw [e]
    have : |(d : Rat)| / 60 ≤ (bound : Rat) / 60 := by linarith
    linarith

/-- The `reduce` of the code, run in doubles, against the exact sum: each of
the two operations per event adds a relative error of at most `2 ^ (-53)`. -/
theorem totalHours_error (l : List Event) (h : ∀ e ∈ l, ∃ d : Int, e.duration = some d) :
    ∃ v s : Rat, totalHours l = some v ∧ sumHours l = some s ∧
      |v - s| ≤ ((1 + 1 / 2 ^ 53) ^ (2 * l.length) - 1) * sumAbsHours l := by
  induction l using List.reverseRecOn with
  | nil =>
    exact ⟨0, 0, rfl, rfl, by simp [sumAbsHours]⟩
  | append_singleton init e ih =>
    obtain ⟨v, s, hv, hs, herr⟩ := ih (fun x hx => h x (List.mem_append_left _ hx))
    obtain ⟨d, hd⟩ := h e (List.mem_append_right _ (List.mem_singleton_self e))
    refine ⟨toDouble (v + toDouble ((d : Rat) / 60)), s + (d : Rat) / 60, ?_, ?_, ?_⟩
    · rw [totalHours_snoc, hv, hd]
    · rw [sumHours_snoc, hs, hd]
    · rw [sumAbsHours_snoc init e d hd]
      have hc : (1 : Rat) ≤ (1 + 1 / 2 ^ 53) ^ (2 * init.length) :=
        one_le_pow₀ (by norm_num)
      have hstep := addition_step_error (1 / 2 ^ 53)
        ((1 + 1 / 2 ^ 53) ^ (2 * init.length)) (sumAbsHours init) (|(d : Rat)| / 60)
        v s (toDouble ((d : Rat) / 60)) ((d : Rat) / 60)
        (toDouble (v + toDouble ((d : Rat) / 60)))
        (by norm_num) hc (sumAbsHours_nonneg init) (sumHours_abs_le init s hs)
        (by rw [abs_div]; norm_num) herr
        (by
          have := toDouble_near ((d : Rat) / 60)
          calc |toDouble ((d : Rat) / 60) - (d : Rat) / 60| ≤ |(d : Rat) / 60| / 2 ^ 53 := this
            _ = 1 / 2 ^ 53 * |(d : Rat) / 60| := by ring)
        (by
          have := toDouble_near (v + toDouble ((d : Rat) / 60))
          calc |toDouble (v + toDouble ((d : Rat) / 60)) - (v + toDouble ((d : Rat) / 60))|
              ≤ |v + toDouble ((d : Rat) / 60)| / 2 ^ 53 := this
            _ = 1 / 2 ^ 53 * |v + toDouble ((d : Rat) / 60)| := by ring)
      have e : (1 + 1 / 2 ^ 53 : Rat) ^ (2 * (init ++ [e]).length)
          = (1 + 1 / 2 ^ 53) ^ (2 * init.length) * (1 + 1 / 2 ^ 53) ^ 2 := by
        rw [List.length_append, List.length_singleton, mul_add, pow_add]
      rw [e]
      exact hstep

/-- For up to a million events with durations of at most 1500 minutes either
way, the hours shown are the double nearest to `n / 10`, where `n / 10` is a
multiple of 1/10 nearest to the exact sum of `duration / 60`. -/
theorem hours_rounded (l : List Event) (hlen : l.length ≤ 1000000)
    (h : ∀ e ∈ l, ∃ d : Int, e.duration = some d ∧ |d| ≤ 1500) :
    ∃ (s : Rat) (n : Int), sumHours l = some s ∧
      (totalHours l).map toFixed1 = some (toDouble ((n : Rat) / 10)) ∧
      |(n : Rat) / 10 - s| ≤ 1 / 20 := by
  obtain ⟨v, s, hv, hs, herr⟩ := totalHours_error l (fun e he => by
    obtain ⟨d, hd, _⟩ := h e he
    exact ⟨d, hd⟩)
  have hA := sumAbsHours_le 1500 l (by
    intro e he
    obtain ⟨d, hd, hb⟩ := h e he
    exact ⟨d, hd, by exact_mod_cast hb⟩)
  have hA0 := sumAbsHours_nonneg l
  have hlen' : (l.length : Rat) ≤ 1000000 := by exact_mod_cast hlen
  have hlen0 : (0 : Rat) ≤ (l.length : Rat) := by positivity
  have hpow := one_add_pow_sub_one_le (1 / 2 ^ 53) (by norm_num) (2 * l.length) (by
    push_cast
    have : (2 * (l.length : Rat)) * (1 / 2 ^ 53) ≤ 2 * 1000000 * (1 / 2 ^ 53) := by
      apply mul_le_mul_of_nonneg_right _ (by norm_num)
      linarith
    refine le_trans this ?_
    norm_num)
  push_cast at hpow
  have hA' : sumAbsHours l ≤ 25000000 := by
    have : (l.length : Rat) * (1500 : ℕ) / 60 ≤ 1000000 * 1500 / 60 := by
      push_cast
      linarith
    refine le_trans hA (le_trans this ?_)
    norm_num
  have hc1 : (1 + 1 / 2 ^ 53 : Rat) ^ (2 * l.length) - 1 ≤ 2 * (2 * 1000000) * (1 / 2 ^ 53) := by
    refine le_trans hpow ?_
    have : (0 : Rat) ≤ 1 / 2 ^ 53 := by norm_num
    nlinarith
  have hc0 : (0 : Rat) ≤ (1 + 1 / 2 ^ 53 : Rat) ^ (2 * l.length) - 1 := by
    have : (1 : Rat) ≤ (1 + 1 / 2 ^ 53) ^ (2 * l.length) := one_le_pow₀ (by norm_num)
    linarith
  have hsmall : |v - s| < 1 / 60 := by
    refine lt_of_le_of_lt herr ?_
    calc ((1 + 1 / 2 ^ 53 : Rat) ^ (2 * l.length) - 1) * sumAbsHours l
        ≤ (2 * (2 * 1000000) * (1 / 2 ^ 53)) * 25000000 :=
          mul_le_mul hc1 hA' hA0 (by norm_num)
      _ < 1 / 60 := by norm_num
  have hsA := sumHours_abs_le l s hs
  have hvabs : |v| < 10 ^ 21 := by
    have h1 : |v| ≤ |v - s| + |s| := by
      have := abs_add (v - s) s
      simpa using this
    have : |v| < 1 / 60 + 25000000 := by linarith
    refine lt_trans this ?_
    norm_num
  obtain ⟨n, hn, hnear⟩ := toFixed1_digits v hvabs
  obtain ⟨k, hk⟩ := sumHours_minutes l s hs
  refine ⟨s, n, hs, ?_, tenth_of_near_sum v s k n hk hnear hsmall⟩
  rw [hv, Option.map_some', hn]

theorem totalHours_scenarioEvent : totalHours [scenarioEvent] = some (3 / 2) := by
  have e : (((90 : Int) : Rat) / 60) = 3 / 2 := by norm_num
  simp only [totalHours, List.foldl, scenarioEvent, e, toDouble_three_halves, zero_add]

theorem totalHours_nine_minutes :
    totalHours [{ scenarioEvent with duration := some 9 }]
      = some (5404319552844595 / 36028797018963968) := by
  have e : (((9 : Int) : Rat) / 60) = 3 / 20 := by norm_num
  have e2 : toDouble (5404319552844595 / 36028797018963968)
      = 5404319552844595 / 36028797018963968 := by
    rw [toDouble_of_binade _ (-3) (by norm_num [abs_of_pos]) (by norm_num [abs_of_pos])]
    norm_num [roundHalfEven]
  simp only [totalHours, List.foldl, scenarioEvent, e, toDouble_nine_minutes, zero_add, e2]

theorem toFixed1_three_halves : toFixed1 (3 / 2) = 3 / 2 := by
  unfold toFixed1
  rw [if_neg (by norm_num [abs_of_pos])]
  have e : (if (3 / 2 : Rat) < 0 then (-1 : Rat) else 1)
      * ((⌊|(3 / 2 : Rat)| * 10 + 1 / 2⌋ : Int) : Rat) / 10 = 3 / 2 := by
    norm_num [abs_of_pos]
  rw [e, toDouble_three_halves]

theorem toFixed1_nine_minutes :
    toFixed1 (5404319552844595 / 36028797018963968) = toDouble (1 / 10) := by
  unfold toFixed1
  rw [if_neg (by norm_num [abs_of_pos])]
  have e : (if (5404319552844595 / 36028797018963968 : Rat) < 0 then (-1 : Rat) else 1)
      * ((⌊|(5404319552844595 / 36028797018963968 : Rat)| * 10 + 1 / 2⌋ : Int) : Rat) / 10
      = 1 / 10 := by
    norm_num [abs_of_pos]
  rw [e]

theorem entityData_single (event : Event) (h : event.entityId = 1) :
    entityData [event] [scenarioEntity]
      = [{ name := "Work", count := 1, hours := (totalHours [event]).map toFixed1,
           color := "#1976D2" }] := by
  unfold entityData
  simp [scenarioEntity, h]

/-- C13: `entityData` has, in the order of the entities, one entry for each
entity with at least one event; the entry carries the number of these events
and, as hours, the `reduce` of their `duration / 60` in doubles put through
`toFixed(1)`.  For up to a million events of at most 1500 minutes each these
hours are the double nearest to a multiple of 1/10 that is nearest to the
exact sum of `duration / 60` (at most 1/20 away from it).  One entity with one
event of 90 minutes gets 1.5 hours; with one event of 9 minutes, whose exact
hours 0.15 lie halfway, it gets the double `0.1`. -/
theorem entityData_entries (t : String → String) (today : Int) (events : List Event)
    (entities : List Entity) :
    entityData events entities
      = (entities.filter fun ent => 0 < (eventsOf events ent).length).map
          (fun ent =>
            ({ name := ent.name
               count := (eventsOf events ent).length
               hours := (totalHours (eventsOf events ent)).map toFixed1
               color := ent.color } : EntityDatum)) ∧
    (∀ ent : Entity, (eventsOf events ent).length ≤ 1000000 →
      (∀ e ∈ eventsOf events ent, ∃ d : Int, e.duration = some d ∧ |d| ≤ 1500) →
      ∃ (s : Rat) (n : Int), sumHours (eventsOf events ent) = some s ∧
        (totalHours (eventsOf events ent)).map toFixed1 = some (toDouble ((n : Rat) / 10)) ∧
        |(n : Rat) / 10 - s| ≤ 1 / 20 ∧
        |toDouble ((n : Rat) / 10) - (n : Rat) / 10| ≤ |(n : Rat) / 10| / 2 ^ 53) ∧
    (∀ s, stats t today events entities = some s →
      s.entityData = entityData events entities) ∧
    entityData [scenarioEvent] [scenarioEntity]
      = [{ name := "Work", count := 1, hours := some (3 / 2), color := "#1976D2" }] ∧
    entityData [{ scenarioEvent with duration := some 9 }] [scenarioEntity]
      = [{ name := "Work", count := 1, hours := some (toDouble (1 / 10)),
           color := "#1976D2" }] ∧
    toDouble (1 / 10) = 3602879701896397 / 36028797018963968 := by
  refine ⟨?_, ?_, ?_, ?_, ?_, toDouble_one_tenth⟩
  · unfold entityData
    rw [List.filter_map]
    rfl
  · intro ent hlen hd
    obtain ⟨s, n, hs, hn, hnear⟩ := hours_rounded (eventsOf events ent) hlen hd
    exact ⟨s, n, hs, hn, hnear, toDouble_near _⟩
  · intro s hs
    unfold stats at hs
    split_ifs at hs
    simp only [Option.some.injEq] at hs
    subst hs
    rfl
  · rw [entityData_single scenarioEvent rfl, totalHours_scenarioEvent, Option.map_some',
      toFixed1_three_halves]
  · rw [entityData_single _ rfl, totalHours_nine_minutes, Option.map_some',
      toFixed1_nine_minutes]

/-- C14: the daily trend has one point for each day from the first day
`first` to the last day `last` of the current month, in ascending order; the
point of the `i`-th day (day `i + 1` of the month) counts the events whose
date text is the `yyyy-MM-dd` text of that day, days without events
included. -/
theorem trendData_points (t : String → String) (today : Int) (events : List Event)
    (entities : List Entity) :
    ∃ first last : Int,
      (∀ n : Int, (first ≤ n ∧ n ≤ last) ↔
        (yearFromDay n = getFullYear today ∧ monthFromDay n = getMonth today)) ∧
      first ≤ last ∧
      trendData today events
        = (List.range (last - first + 1).toNat).map (fun i : Nat =>
            ({ date := formatDayMonth (makeDate (first + i) 0)
               count := (events.filter fun e =>
                 e.date == formatDate (makeDate (first + i) 0)).length } : TrendPoint)) ∧
      (trendData today events).length = (last - first + 1).toNat ∧
      (∀ i : Nat, (i : Int) ≤ last - first →
        getDate (makeDate (first + i) 0) = (i : Int) + 1) ∧
      (∀ s, stats t today events entities = some s →
        s.trendData = trendData today events) := by
  have hm := monthFromDay_range (day today)
  have hspan := fun n => month_span (getFullYear today) (getMonth today) n hm.1 hm.2
  have hcur := (hspan (day today)).2 ⟨rfl, rfl⟩
  have hfl : makeDay (getFullYear today) (getMonth today) 1
      ≤ makeDay (getFullYear today) (getMonth today + 1) 0 := le_trans hcur.1 hcur.2
  have htrend : trendData today events
      = (List.range (makeDay (getFullYear today) (getMonth today + 1) 0
            - makeDay (getFullYear today) (getMonth today) 1 + 1).toNat).map (fun i : Nat =>
          ({ date := formatDayMonth
               (makeDate (makeDay (getFullYear today) (getMonth today) 1 + i) 0)
             count := (events.filter fun e =>
               e.date == formatDate
                 (makeDate (makeDay (getFullYear today) (getMonth today) 1 + i) 0)).length }
            : TrendPoint)) := by
    unfold trendData
    simp only []
    rw [startOfMonth_eq, endOfMonth_eq,
      eachDayOfInterval_eq _ _ (by unfold makeDate; omega),
      day_makeDate _ 0 (by omega) (by omega),
      day_makeDate _ 86399999 (by omega) (by omega), List.map_map]
    rfl
  refine ⟨_, _, hspan, hfl, htrend, ?_, ?_, ?_⟩
  · rw [htrend, List.length_map, List.length_range]
  · intro i hi
    have hadd := makeDay_add (getFullYear today) (getMonth today) 1 i
    have hc := civil_of_makeDay (getFullYear today) (getMonth today) (1 + i) hm.1 hm.2
      (by omega) (by omega)
    unfold getDate
    rw [day_makeDate _ 0 (by omega) (by omega), ← hadd, hc.2.2]
    ring
  · intro s hs
    unfold stats at hs
    split_ifs at hs
    simp only [Option.some.injEq] at hs
    subst hs
    rfl

/-! ### Deleted entities, required fields, backward times -/

theorem eventColor_of_not_found (entities : List Entity) (event : Event)
    (h : ∀ ent ∈ entities, ent.id ≠ some event.entityId) :
    eventColor entities event = defaultColor := by
  have hfind : findEntity entities event = none := by
    unfold findEntity
    rw [List.find?_eq_none]
    intro ent hent
    simpa using h ent hent
  unfold eventColor
  rw [hfind]

/-- C15: deleting an entity leaves the events table as it was; an event whose
`entityId` is the id of no entity, as after the deletion of its entity, gets
the default colour `'#94a3b8'`; and the events placed in a month cell or a
timeline column are those of the day, whatever the entities. -/
theorem deleteEntity_keeps_events :
    (∀ (confirmed : Bool) (entity : Entity) (db : Tables),
      (deleteEntityClick confirmed entity db).events = db.events) ∧
    defaultColor = "#94a3b8" ∧
    (∀ (entities : List Entity) (event : Event),
      (∀ ent ∈ entities, ent.id ≠ some event.entityId) →
      eventColor entities event = defaultColor) ∧
    (∀ (key : Nat) (entity : Entity) (db : Tables) (event : Event),
      entity.id = some key → event.entityId = key →
      eventColor (deleteEntityClick true entity db).entities event = defaultColor) ∧
    (∀ (tz : Int) (entities : List Entity) (events : List Event) (day : Int),
      (columnBlocks tz entities events day).map TimelineBlock.event = dayEvents tz events day ∧
      (cellChips entities (dayEvents tz events day)).map Prod.fst
        = cellShown (dayEvents tz events day) ∧
      (∀ block ∈ columnBlocks tz entities events day,
        block.color = eventColor entities block.event ∧
        block.top = eventTop block.event ∧ block.height = eventHeight block.event) ∧
      (∀ chip ∈ cellChips entities (dayEvents tz events day),
        chip.2 = eventColor entities chip.1)) ∧
    cellChips
        (deleteEntityClick true scenarioEntity
          { events := { events := [scenarioEvent], nextId := 2 }
            entities := [scenarioEntity, otherEntity] }).entities
        [scenarioEvent]
      = [(scenarioEvent, "#94a3b8")] := by
  refine ⟨?_, rfl, eventColor_of_not_found, ?_, ?_, by decide⟩
  · intro confirmed entity db
    unfold deleteEntityClick
    cases confirmed
    · rfl
    · cases entity.id <;> rfl
  · intro key entity db event hid hev
    apply eventColor_of_not_found
    intro ent hent
    unfold deleteEntityClick at hent
    rw [hid] at hent
    simp only [if_true, Tables.deleteEntity, List.mem_filter, bne_iff_ne, ne_eq] at hent
    rw [hev]
    exact hent.2
  · intro tz entities events day
    refine ⟨?_, ?_, ?_, ?_⟩
    · unfold columnBlocks
      rw [List.map_map]
      exact List.map_id _
    · unfold cellChips
      rw [List.map_map]
      exact List.map_id _
    · intro block hb
      unfold columnBlocks at hb
      rw [List.mem_map] at hb
      obtain ⟨e, _, rfl⟩ := hb
      exact ⟨rfl, rfl, rfl⟩
    · intro chip hc
      unfold cellChips at hc
      rw [List.mem_map] at hc
      obtain ⟨e, _, rfl⟩ := hc
      rfl

theorem submitDuration_presenceForm (tz : Int) :
    submitDuration (fixedZone tz) presenceForm march5 = some 90 := by
  rw [submitDuration_same_offset (fixedZone tz) presenceForm march5 9 0 10 30 rfl rfl
    (by decide) (by decide) (by decide) (by decide) rfl]
  rfl

/-- C17, at the scenario form switched to presence with its location left
empty: `handleSubmit`, which the Save button calls directly, does not stop
at its guard; the event is stored with mode presence and an empty location
(with the duration 90 in every zone of one UTC offset `tz`, with mode and
location as said in every zone). -/
theorem handleSubmit_presence_without_location (tz : Int) :
    presenceForm.mode = Mode.presence ∧ presenceForm.location = "" ∧
    handleSubmit (fixedZone tz) presenceForm none march5 1000 { events := [], nextId := 1 }
      = (Outcome.saved,
          { events := [{ scenarioEvent with mode := Mode.presence }], nextId := 2 }) ∧
    (∀ zone : Zone,
      (handleSubmit zone presenceForm none march5 1000
          { events := [], nextId := 1 }).2.events.map (fun e => (e.mode, e.location))
        = [(Mode.presence, some "")]) := by
  have hev : submitEvent (fixedZone tz) presenceForm march5 1000
      = submitEvent (fixedZone 0) presenceForm march5 1000 := by
    unfold submitEvent
    rw [submitDuration_presenceForm tz, submitDuration_presenceForm 0]
  refine ⟨rfl, rfl, ?_, ?_⟩
  · rw [handleSubmit_runs (fixedZone tz) presenceForm none march5 1000
      { events := [], nextId := 1 } (by decide) rfl, hev]
    decide
  · intro zone
    rw [handleSubmit_runs zone presenceForm none march5 1000
      { events := [], nextId := 1 } (by decide) rfl]
    rfl

/-- An input with a title, an entity and `HH:mm` times whose end is not after
its start, saved where the zone has one UTC offset at both times: it is not
stopped at the guard; the written event carries the duration
`(eh * 60 + em) - (sh * 60 + sm)`, zero or negative, with no wrap over
midnight, and so does every record the call adds or replaces; the timeline
gives such an event the height `duration / 60 * 80`, zero or negative. -/
theorem handleSubmit_backward_same_offset (zone : Zone) (formData : FormData)
    (initialData : Option InitialData) (today : Int) (now : Nat) (db : Db)
    (sh sm eh em : Nat)
    (htitle : formData.title ≠ "") (hentity : formData.entityId.falsy = false)
    (hs : formData.startTime = timeText sh sm) (he : formData.endTime = timeText eh em)
    (hsh : sh ≤ 23) (hsm : sm ≤ 59) (heh : eh ≤ 23) (hem : em ≤ 59)
    (hle : eh * 60 + em ≤ sh * 60 + sm)
    (hoff : zone.offsetAtLocal (timeOfDay today sh sm)
      = zone.offsetAtLocal (timeOfDay today eh em)) :
    handleSubmit zone formData initialData today now db
      = persist initialData (submitEvent zone formData today now) db ∧
    (handleSubmit zone formData initialData today now db).1 ≠ Outcome.rejected ∧
    (submitEvent zone formData today now).duration
      = some (((eh : Int) * 60 + (em : Int)) - ((sh : Int) * 60 + (sm : Int))) ∧
    ((eh : Int) * 60 + (em : Int)) - ((sh : Int) * 60 + (sm : Int)) ≤ 0 ∧
    (∀ e ∈ (handleSubmit zone formData initialData today now db).2.events,
      e ∈ db.events ∨
        e.duration = some (((eh : Int) * 60 + (em : Int)) - ((sh : Int) * 60 + (sm : Int)))) ∧
    eventHeight (submitEvent zone formData today now)
      = some (((((eh : Int) * 60 + (em : Int)) - ((sh : Int) * 60 + (sm : Int)) : Int) : Rat)
          / 60 * 80) ∧
    ((((eh : Int) * 60 + (em : Int)) - ((sh : Int) * 60 + (sm : Int)) : Int) : Rat)
      / 60 * 80 ≤ 0 := by
  have hd := submitDuration_same_offset zone formData today sh sm eh em hs he hsh hsm heh hem
    hoff
  have hrun := handleSubmit_runs zone formData initialData today now db htitle hentity
  have hev : (submitEvent zone formData today now).duration
      = some (((eh : Int) * 60 + (em : Int)) - ((sh : Int) * 60 + (sm : Int))) := hd
  have hneg : ((eh : Int) * 60 + (em : Int)) - ((sh : Int) * 60 + (sm : Int)) ≤ 0 := by
    omega
  refine ⟨hrun, ?_, hev, hneg, ?_, ?_, ?_⟩
  · rw [hrun]
    unfold persist
    split
    · simp
    · split <;> simp
  · intro e hmem
    rw [hrun] at hmem
    rcases persist_records _ _ _ e hmem with h | ⟨key, h⟩
    · exact Or.inl h
    · refine Or.inr ?_
      rw [h]
      exact hev
  · unfold eventHeight
    rw [hev]
    rfl
  · have hq : ((((eh : Int) * 60 + (em : Int)) - ((sh : Int) * 60 + (sm : Int)) : Int) : Rat)
        ≤ 0 := by exact_mod_cast hneg
    linarith

/-- An input with a title and an entity is never stopped at the guard,
whatever its times. -/
theorem handleSubmit_not_rejected (zone : Zone) (formData : FormData)
    (initialData : Option InitialData) (today : Int) (now : Nat) (db : Db)
    (htitle : formData.title ≠ "") (hentity : formData.entityId.falsy = false) :
    (handleSubmit zone formData initialData today now db).1 ≠ Outcome.rejected := by
  rw [handleSubmit_runs zone formData initialData today now db htitle hentity]
  unfold persist
  split
  · simp
  · split <;> simp

theorem eventHeight_of_duration (event : Event) (d : Int) (h : event.duration = some d) :
    eventHeight event = some ((d : Rat) / 60 * 80) := by
  unfold eventHeight
  rw [h]
  rfl

/-- C20, saved in Europe/Rome on 2024-03-31, the day the clock moves from
02:00 to 03:00: the form 03:00 to 02:30, whose end is before its start, is
saved with the duration +30 and drawn 40 pixels high, not zero or negative;
the form 03:30 to 01:30 is saved with -60, not -120 (saved on 2024-03-05 it
gets -120).  No input with a title and an entity is stopped at the guard.
The stored duration is the difference on the clock less the change of UTC
offset between the two times on the day of saving; wherever the zone has one
offset at both times it is the difference on the clock, zero or negative, and
so is the height. -/
theorem handleSubmit_backward_offset_change :
    (handleSubmit romeSpring2024 gapBackwardForm none march31 1000
        { events := [], nextId := 1 }).1 = Outcome.saved ∧
    (handleSubmit romeSpring2024 gapBackwardForm none march31 1000
        { events := [], nextId := 1 }).2.events.map
      (fun e => (e.startTime, e.endTime, e.duration)) = [("03:00", "02:30", some 30)] ∧
    eventHeight (submitEvent romeSpring2024 gapBackwardForm march31 1000) = some 40 ∧
    (handleSubmit romeSpring2024 springBackwardForm none march31 1000
        { events := [], nextId := 1 }).2.events.map
      (fun e => (e.startTime, e.endTime, e.duration)) = [("03:30", "01:30", some (-60))] ∧
    (handleSubmit romeSpring2024 springBackwardForm none march5 1000
        { events := [], nextId := 1 }).2.events.map
      (fun e => (e.startTime, e.endTime, e.duration)) = [("03:30", "01:30", some (-120))] ∧
    (∀ (zone : Zone) (formData : FormData) (initialData : Option InitialData)
        (today : Int) (now : Nat) (db : Db),
      formData.title ≠ "" → formData.entityId.falsy = false →
      (handleSubmit zone formData initialData today now db).1 ≠ Outcome.rejected) ∧
    (∀ (zone : Zone) (formData : FormData) (initialData : Option InitialData)
        (today : Int) (now : Nat) (db : Db) (sh sm eh em : Nat),
      formData.title ≠ "" → formData.entityId.falsy = false →
      formData.startTime = timeText sh sm → formData.endTime = timeText eh em →
      sh ≤ 23 → sm ≤ 59 → eh ≤ 23 → em ≤ 59 → eh * 60 + em ≤ sh * 60 + sm →
      zone.offsetAtLocal (timeOfDay today sh sm)
        = zone.offsetAtLocal (timeOfDay today eh em) →
      (submitEvent zone formData today now).duration
        = some (((eh : Int) * 60 + (em : Int)) - ((sh : Int) * 60 + (sm : Int))) ∧
      ((eh : Int) * 60 + (em : Int)) - ((sh : Int) * 60 + (sm : Int)) ≤ 0 ∧
      (∀ e ∈ (handleSubmit zone formData initialData today now db).2.events,
        e ∈ db.events ∨
          e.duration
            = some (((eh : Int) * 60 + (em : Int)) - ((sh : Int) * 60 + (sm : Int)))) ∧
      eventHeight (submitEvent zone formData today now)
        = some (((((eh : Int) * 60 + (em : Int)) - ((sh : Int) * 60 + (sm : Int)) : Int) : Rat)
            / 60 * 80) ∧
      ((((eh : Int) * 60 + (em : Int)) - ((sh : Int) * 60 + (sm : Int)) : Int) : Rat)
        / 60 * 80 ≤ 0) ∧
    (handleSubmit (fixedZone 60) backwardForm none march5 1000
        { events := [], nextId := 1 }).2.events.map Event.duration = [some (-90)] ∧
    eventHeight (submitEvent (fixedZone 60) backwardForm march5 1000) = some (-120) := by
  refine ⟨by decide, by decide, ?_, by decide, by decide, ?_, ?_, by decide, ?_⟩
  · rw [eventHeight_of_duration _ 30 (by decide)]
    norm_num
  · intro zone formData initialData today now db htitle hentity
    exact handleSubmit_not_rejected zone formData initialData today now db htitle hentity
  · intro zone formData initialData today now db sh sm eh em htitle hentity hs he hsh hsm
      heh hem hle hoff
    have h := handleSubmit_backward_same_offset zone formData initialData today now db
      sh sm eh em htitle hentity hs he hsh hsm heh hem hle hoff
    exact ⟨h.2.2.1, h.2.2.2.1, h.2.2.2.2.1, h.2.2.2.2.2.1, h.2.2.2.2.2.2⟩
  · rw [eventHeight_of_duration _ (-90) (by decide)]
    norm_num
/-! ### Notifications -/

theorem parseIsoDate_shape (text : List Char) (y m d : Nat)
    (h : parseIsoDate text = some (y, m, d)) :
    ∃ y3 y2 y1 y0 m1 m0 d1 d0 : Char,
      text = [y3, y2, y1, y0, '-', m1, m0, '-', d1, d0] ∧
      [y3, y2, y1, y0, m1, m0, d1, d0].all Char.isDigit = true ∧
      y = ofDigits 10 [y3.toNat - 48, y2.toNat - 48, y1.toNat - 48, y0.toNat - 48] ∧
      m = ofDigits 10 [m1.toNat - 48, m0.toNat - 48] ∧
      d = ofDigits 10 [d1.toNat - 48, d0.toNat - 48] := by
  unfold parseIsoDate at h
  split at h
  · rename_i y3 y2 y1 y0 m1 m0 d1 d0
    split_ifs at h with hdig
    simp only [Option.some.injEq, Prod.mk.injEq] at h
    exact ⟨y3, y2, y1, y0, m1, m0, d1, d0, rfl, hdig, h.1.symm, h.2.1.symm, h.2.2.symm⟩
  · exact absurd h (by simp)

theorem eventDate_of_texts (event : Event) (n : Int) (hour min : Nat)
    (hday : isoDay event.date = some n) (hstart : event.startTime = timeText hour min)
    (hh : hour ≤ 23) (hm : min ≤ 59) :
    eventDate event = some (makeDate n ((hour : Int) * 3600000 + (min : Int) * 60000)) := by
  unfold isoDay parseDate at hday
  cases hp : parseIsoDate event.date.data with
  | none =>
    rw [hp] at hday
    exact absurd hday (by simp)
  | some ymd =>
    obtain ⟨y, m, d⟩ := ymd
    rw [hp] at hday
    simp only at hday
    by_cases hr : 1 ≤ m ∧ m ≤ 12 ∧ 1 ≤ d ∧ d ≤ 31
    swap
    · rw [if_neg hr] at hday
      exact absurd hday (by simp)
    rw [if_pos hr] at hday
    simp only [Option.map_some', Option.some.injEq, zero_mul, add_zero] at hday
    rw [day_makeDate _ 0 (by omega) (by omega)] at hday
    obtain ⟨y3, y2, y1, y0, m1, m0, d1, d0, hshape, hdig, hy, hmo, hd⟩ :=
      parseIsoDate_shape _ _ _ _ hp
    obtain ⟨a1, a2, _⟩ := digitChar_isDigit (hour / 10) (by omega)
    obtain ⟨b1, b2, _⟩ := digitChar_isDigit (hour % 10) (by omega)
    obtain ⟨c1, c2, _⟩ := digitChar_isDigit (min / 10) (by omega)
    obtain ⟨d1', d2', _⟩ := digitChar_isDigit (min % 10) (by omega)
    have e1 : hour / 10 * 10 + hour % 10 = hour := by omega
    have e2 : min / 10 * 10 + min % 10 = min := by omega
    unfold eventDate
    simp only [String.data_append, hshape, hstart, timeText_data hour min (by omega) (by omega)]
    simp only [List.all_cons, List.all_nil, Bool.and_true, Bool.and_eq_true] at hdig
    obtain ⟨g1, g2, g3, g4, g5, g6, g7, g8⟩ := hdig
    have hT : ("T" : String).data = ['T'] := rfl
    simp only [hT, List.cons_append, List.nil_append, parseIsoDateTime, List.all_cons,
      List.all_nil, g1, g2, g3, g4, g5, g6, g7, g8, a1, b1, c1, d1', Bool.and_self, if_true,
      ← hy, ← hmo, ← hd]
    simp only [ofDigits, List.foldl, a2, b2, c2, d2', zero_mul, zero_add, e1, e2]
    rw [if_pos ⟨hr.1, hr.2.1, hr.2.2.1, hr.2.2.2, hm, Or.inl hh⟩, hday]
    simp [makeTime]

/-- C18: at a tick at the instant `now` the callback notifies for an event
exactly when the event has a start date and the whole minutes left to it,
`floor((start - now) / 60000)`, are 30, that is when between 30 and 31
minutes are left; the start date is the local time made of the event's date
and start time; one notification is created for each such event. -/
theorem notifies_iff (now : Int) (event : Event) :
    (notifies now event = true ↔
      ∃ start, eventDate event = some start ∧ (start - now) / 60000 = 30) ∧
    (notifies now event = true ↔
      ∃ start, eventDate event = some start ∧
        1800000 ≤ start - now ∧ start - now < 1860000) ∧
    (∀ (n : Int) (hour min : Nat),
      isoDay event.date = some n → event.startTime = timeText hour min →
      hour ≤ 23 → min ≤ 59 →
      eventDate event
        = some (makeDate n ((hour : Int) * 3600000 + (min : Int) * 60000))) ∧
    (∀ (allEvents : List Event) (entities : List Entity),
      tick now allEvents entities
        = (allEvents.filter fun e => notifies now e).map (notificationOf entities) ∧
      (tick now allEvents entities).length
        = (allEvents.filter fun e => notifies now e).length) ∧
    eventDate scenarioEvent = some (makeDate 19787 32400000) ∧
    notifies (makeDate 19787 30600000) scenarioEvent = true ∧
    notifies (makeDate 19787 30570000) scenarioEvent = true ∧
    notifies (makeDate 19787 30540000) scenarioEvent = false ∧
    notifies (makeDate 19787 30660000) scenarioEvent = false := by
  have hiff : notifies now event = true ↔
      ∃ start, eventDate event = some start ∧ (start - now) / 60000 = 30 := by
    unfold notifies diffMins
    cases eventDate event with
    | none => simp
    | some start => simp
  refine ⟨hiff, ?_, ?_, ?_, by decide, by decide, by decide, by decide, by decide⟩
  · rw [hiff]
    constructor
    · rintro ⟨start, hs, hd⟩
      exact ⟨start, hs, by omega, by omega⟩
    · rintro ⟨start, hs, h1, h2⟩
      exact ⟨start, hs, by omega⟩
  · intro n hour min hday hstart hh hm
    exact eventDate_of_texts event n hour min hday hstart hh hm
  · intro allEvents entities
    exact ⟨rfl, by unfold tick; rw [List.length_map]⟩

/-! ### Recurrence -/

theorem dayEvents_map_erase (tz : Int) (events : List Event) (day : Int) :
    dayEvents tz (events.map eraseRecurrence) day
      = (dayEvents tz events day).map eraseRecurrence := by
  unfold dayEvents
  rw [List.filter_map]
  rfl

theorem cellShown_map_erase (l : List Event) :
    cellShown (l.map eraseRecurrence) = (cellShown l).map eraseRecurrence := by
  simp [cellShown, slice, List.map_take]

theorem cellMore_map_erase (l : List Event) :
    cellMore (l.map eraseRecurrence) = cellMore l := by
  simp [cellMore]

theorem renderMonthView_map_erase (tz currentDate : Int) (events : List Event) :
    renderMonthView tz currentDate (events.map eraseRecurrence)
      = (renderMonthView tz currentDate events).map MonthCell.eraseRecurrence := by
  unfold renderMonthView
  rw [List.map_map]
  apply List.map_congr_left
  intro d _
  simp only [Function.comp, MonthCell.eraseRecurrence, dayEvents_map_erase,
    cellShown_map_erase, cellMore_map_erase]

theorem columnEvents_map_erase (tz : Int) (events : List Event) (day : Int) :
    columnEvents tz (events.map eraseRecurrence) day
      = (columnEvents tz events day).map
          fun placed => (eraseRecurrence placed.1, placed.2) := by
  unfold columnEvents
  rw [dayEvents_map_erase, List.map_map, List.map_map]
  rfl

theorem renderTimelineView_map_erase (daysCount tz currentDate : Int)
    (events : List Event) :
    renderTimelineView daysCount tz currentDate (events.map eraseRecurrence)
      = (renderTimelineView daysCount tz currentDate events).map eraseColumn := by
  unfold renderTimelineView
  rw [List.map_map]
  apply List.map_congr_left
  intro d _
  simp only [Function.comp, eraseColumn, columnEvents_map_erase]

theorem totalHours_map_erase (l : List Event) :
    totalHours (l.map eraseRecurrence) = totalHours l := by
  unfold totalHours
  rw [List.foldl_map]
  rfl

theorem stats_map_erase (t : String → String) (today : Int) (events : List Event)
    (entities : List Entity) :
    stats t today (events.map eraseRecurrence) entities = stats t today events entities := by
  have hfilter : ∀ p : Event → Bool, (∀ e, p (eraseRecurrence e) = p e) →
      (events.map eraseRecurrence).filter p = (events.filter p).map eraseRecurrence := by
    intro p hp
    rw [List.filter_map]
    congr 1
    apply List.filter_congr
    intro e _
    exact hp e
  have hentity : entityData (events.map eraseRecurrence) entities
      = entityData events entities := by
    unfold entityData
    congr 1
    apply List.map_congr_left
    intro ent _
    simp only [hfilter (fun e => some e.entityId == ent.id) (fun _ => rfl),
      List.length_map, totalHours_map_erase]
  have hmode : modeData t (events.map eraseRecurrence) = modeData t events := by
    unfold modeData
    simp only [hfilter (fun e => e.mode == Mode.online) (fun _ => rfl),
      hfilter (fun e => e.mode == Mode.presence) (fun _ => rfl), List.length_map]
  have htrend : trendData today (events.map eraseRecurrence) = trendData today events := by
    unfold trendData
    simp only []
    apply List.map_congr_left
    intro d _
    simp only [hfilter (fun e => e.date == formatDate d) (fun _ => rfl), List.length_map]
  unfold stats
  simp only [List.length_map, hentity, hmode, htrend]

/-- C19: the layouts of the month, the week and the day and the statistics do
not read the recurrence tag: two event lists that differ in these tags alone
give the same cells, columns, offsets, heights and statistics.  An event is
in the cells of one day at most, and in a zone at or east of UTC that day is
the event's own date.  In a zone five hours west of UTC the event dated
2024-03-05 is held by the cell of 2024-03-04 and by no other cell: the defect
of `parseDate` seen at C6. -/
theorem recurrence_not_expanded :
    (∀ (tz currentDate daysCount today : Int) (t : String → String)
        (entities : List Entity) (events₁ events₂ : List Event),
      events₁.map eraseRecurrence = events₂.map eraseRecurrence →
      (renderMonthView tz currentDate events₁).map MonthCell.eraseRecurrence
        = (renderMonthView tz currentDate events₂).map MonthCell.eraseRecurrence ∧
      (renderTimelineView daysCount tz currentDate events₁).map eraseColumn
        = (renderTimelineView daysCount tz currentDate events₂).map eraseColumn ∧
      stats t today events₁ entities = stats t today events₂ entities) ∧
    (∀ (tz : Int) (events : List Event) (event : Event) (d₁ d₂ : Int),
      event ∈ dayEvents tz events d₁ → event ∈ dayEvents tz events d₂ → day d₁ = day d₂) ∧
    (∀ (tz : Int) (events : List Event) (event : Event) (n : Int),
      0 ≤ tz → tz < 1440 → event ∈ dayEvents tz events (makeDate n 0) →
      isoDay event.date = some n) ∧
    dailyEvent.recurrence = some Recurrence.daily ∧ dailyEvent.date = "2024-03-05" ∧
    formatDate march4 = "2024-03-04" ∧
    cellsHolding (-300) march5 [dailyEvent] dailyEvent = [march4] ∧
    cellsHolding 60 march5 [dailyEvent] dailyEvent = [march5] := by
  refine ⟨?_, ?_, ?_, rfl, rfl, by decide, by decide, by decide⟩
  · intro tz currentDate daysCount today t entities events₁ events₂ h
    refine ⟨?_, ?_, ?_⟩
    · rw [← renderMonthView_map_erase, ← renderMonthView_map_erase, h]
    · rw [← renderTimelineView_map_erase, ← renderTimelineView_map_erase, h]
    · rw [← stats_map_erase t today events₁, ← stats_map_erase t today events₂, h]
  · intro tz events event d₁ d₂ h₁ h₂
    unfold dayEvents at h₁ h₂
    rw [List.mem_filter] at h₁ h₂
    have e₁ := h₁.2
    have e₂ := h₂.2
    unfold isSameDay at e₁ e₂
    cases hp : parseDate tz event.date with
    | none =>
      rw [hp] at e₁
      exact absurd e₁ (by simp)
    | some start =>
      rw [hp] at e₁ e₂
      simp only [beq_iff_eq, startOfDay, setHours_zero, makeDate] at e₁ e₂
      omega
  · intro tz events event n h0 h1 hmem
    rw [(dayEvents_by_zone tz events n).1 h0 h1, List.mem_filter] at hmem
    simpa using hmem.2

/-! ### Hour grid, slot clicks -/

/-- With more fuel than hours left, the loop lists the hours from
`currentDate` up to `endTime`, and stops there by its own condition. -/
theorem eachHourLoop_eq (fuel : Nat) (endTime : Int) :
    ∀ c : Int, ((endTime - c) / 3600000 + 1).toNat < fuel →
      eachHourLoop fuel c endTime =
        (List.range ((endTime - c) / 3600000 + 1).toNat).map
          fun i : Nat => c + (i : Int) * 3600000 := by
  induction fuel with
  | zero => intro c h; omega
  | succ fuel ih =>
    intro c h
    unfold eachHourLoop
    by_cases hc : c ≤ endTime
    · rw [if_pos hc, addHours, ih (c + 1 * 3600000) (by omega)]
      have e : ((endTime - c) / 3600000 + 1).toNat
          = ((endTime - (c + 1 * 3600000)) / 3600000 + 1).toNat + 1 := by omega
      rw [e, List.range_succ_eq_map]
      simp only [List.map_cons, List.map_map]
      refine congrArg₂ _ (by simp) ?_
      apply List.map_congr_left
      intro i _
      simp only [Function.comp, Nat.succ_eq_add_one, Nat.cast_add, Nat.cast_one]
      ring
    · rw [if_neg hc]
      have e : ((endTime - c) / 3600000 + 1).toNat = 0 := by omega
      rw [e]
      rfl

/-- Where the zone reads the local midnight of the date back from its epoch
value, the `hours` of the date are the 24 dates found one hour of elapsed
time apart from that midnight on. -/
theorem hours_eq_of_midnight (zone : Zone) (currentDate : Int)
    (hmid : zone.localTime (zone.utc (startOfDay currentDate)) = startOfDay currentDate) :
    hours zone currentDate
      = (List.range 24).map fun i : Nat =>
          zone.localTime (zone.utc (startOfDay currentDate) + (i : Int) * 3600000) := by
  have hs : startOfDay currentDate = makeDate (day currentDate) 0 := by
    simp only [startOfDay, setHours_zero]
  have hstart : setMinutes (startOfDay currentDate) 0 0 0 = startOfDay currentDate := by
    rw [hs]
    unfold setMinutes getHours makeTime
    rw [day_makeDate _ 0 (by omega) (by omega)]
    unfold timeWithinDay makeDate
    congr 1
    omega
  unfold hours eachHourOfInterval
  generalize hg : zone.utc (startOfDay currentDate) = s at hmid ⊢
  have hlt : ¬ addMinutes s (23 * 60 + 59) < s := by
    unfold addMinutes
    omega
  simp only [hlt, decide_False, Bool.false_eq_true, if_false, hmid, hstart, hg]
  have hk : ((addMinutes s (23 * 60 + 59) - s) / 3600000 + 1).toNat = 24 := by
    unfold addMinutes
    omega
  have hf : ((addMinutes s (23 * 60 + 59) - s) / 3600000 + 2).toNat = 25 := by
    unfold addMinutes
    omega
  rw [hf, eachHourLoop_eq 25 _ _ (by rw [hk]; decide), hk, List.map_map]
  rfl

/-- In a zone of one UTC offset the `hours` of a date are the 24 full hours of
its day. -/
theorem hours_eq (tz : Int) (currentDate : Int) :
    hours (fixedZone tz) currentDate
      = (List.range 24).map fun i : Nat => makeDate (day currentDate) ((i : Int) * 3600000) := by
  rw [hours_eq_of_midnight (fixedZone tz) currentDate
    (by simp only [Zone.localTime, Zone.utc, fixedZone]; omega)]
  apply List.map_congr_left
  intro i _
  simp only [Zone.localTime, Zone.utc, fixedZone, startOfDay, setHours_zero]
  unfold makeDate
  ring

theorem formatHHmm_full_hour (d : Int) (i : Nat) (hi : i < 24) :
    formatHHmm (makeDate d ((i : Int) * 3600000)) = timeText i 0 := by
  have h1 : getHours (makeDate d ((i : Int) * 3600000)) = i := by
    unfold getHours timeWithinDay makeDate
    omega
  have h2 : getMinutes (makeDate d ((i : Int) * 3600000)) = 0 := by
    unfold getMinutes timeWithinDay makeDate
    omega
  unfold formatHHmm
  rw [h1, h2]
  rfl

/-- A formatted time is the text of an hour up to 23 and a minute up to 59. -/
theorem formatHHmm_time_of_day (t : Int) :
    ∃ hour min : Nat, hour ≤ 23 ∧ min ≤ 59 ∧ formatHHmm t = timeText hour min := by
  refine ⟨(getHours t).toNat, (getMinutes t).toNat, ?_, ?_, rfl⟩
  · unfold getHours timeWithinDay
    omega
  · unfold getMinutes timeWithinDay
    omega

theorem hourSlots_fixedZone (tz : Int) (currentDate : Int) :
    hourSlots (fixedZone tz) currentDate
      = (List.range 24).map (fun i : Nat => (timeText i 0, 80)) := by
  unfold hourSlots
  rw [hours_eq, List.map_map]
  apply List.map_congr_left
  intro i hi
  rw [List.mem_range] at hi
  simp only [Function.comp, formatHHmm_full_hour _ i hi, slotHeight]

theorem eventTop_timeText (event : Event) (hour min : Nat) (hh : hour < 100)
    (hm : min < 100) (hstart : event.startTime = timeText hour min) :
    eventTop event = some ((hour : Rat) * 80 + (min : Rat) / 60 * 80) := by
  obtain ⟨p0, p1⟩ := parseIntAt_timeText hour min hh hm
  unfold eventTop
  simp only [hstart, p0, p1, Int.cast_natCast]

theorem columnHeight_of_length (zone : Zone) (currentDate : Int)
    (h : (hours zone currentDate).length = 24) :
    columnHeight zone currentDate = 1920 := by
  have hconst : (hourSlots zone currentDate).map Prod.snd = List.replicate 24 80 := by
    unfold hourSlots
    rw [List.map_map, List.eq_replicate_iff]
    refine ⟨by rw [List.length_map, h], ?_⟩
    intro b hb
    rw [List.mem_map] at hb
    obtain ⟨x, _, rfl⟩ := hb
    rfl
  unfold columnHeight
  rw [hconst]
  rfl

/-- C22, in Europe/Rome on 2024-03-31, the day the clock moves from 02:00 to
03:00: the hour grid still has 24 slots of 80 pixels, 1920 pixels in all, but
their labels are 00:00, 01:00, 03:00, ..., 23:00 and again 00:00; there is no
slot 02:00, and from the third slot on the slot of an hour lies 80 pixels
above the position `hour * 80` that the event overlay gives an event of that
hour.  Wherever the local midnight of the date is read back from its epoch
value the grid has 24 slots of 80 pixels, 1920 in all; in every zone of one
UTC offset the labels are 00:00, 01:00, ..., 23:00 on every date. -/
theorem hour_grid_offset_change :
    (hourSlots romeSpring2024 march31).map Prod.fst
      = ["00:00", "01:00", "03:00", "04:00", "05:00", "06:00", "07:00", "08:00", "09:00",
         "10:00", "11:00", "12:00", "13:00", "14:00", "15:00", "16:00", "17:00", "18:00",
         "19:00", "20:00", "21:00", "22:00", "23:00", "00:00"] ∧
    (hourSlots romeSpring2024 march31).length = 24 ∧
    columnHeight romeSpring2024 march31 = 1920 ∧
    eventTop { scenarioEvent with startTime := "03:00" } = some (3 * 80) ∧
    (hourSlots romeSpring2024 march31).get? 3 = some ("04:00", 80) ∧
    (∀ (zone : Zone) (currentDate : Int),
      zone.localTime (zone.utc (startOfDay currentDate)) = startOfDay currentDate →
      (hourSlots zone currentDate).length = 24 ∧
      (∀ slot ∈ hourSlots zone currentDate, slot.2 = slotHeight) ∧ slotHeight = 80 ∧
      columnHeight zone currentDate = 24 * slotHeight ∧
      columnHeight zone currentDate = 1920) ∧
    (∀ (tz : Int) (currentDate : Int),
      hourSlots (fixedZone tz) currentDate
        = (List.range 24).map (fun i : Nat => (timeText i 0, 80)) ∧
      (hourSlots (fixedZone tz) currentDate).map Prod.fst
        = ["00:00", "01:00", "02:00", "03:00", "04:00", "05:00", "06:00", "07:00", "08:00",
           "09:00", "10:00", "11:00", "12:00", "13:00", "14:00", "15:00", "16:00", "17:00",
           "18:00", "19:00", "20:00", "21:00", "22:00", "23:00"]) := by
  refine ⟨by decide, by decide, by decide, ?_, by decide, ?_, ?_⟩
  · rw [eventTop_timeText _ 3 0 (by decide) (by decide) rfl]
    norm_num
  · intro zone currentDate hmid
    have hlen : (hours zone currentDate).length = 24 := by
      rw [hours_eq_of_midnight zone currentDate hmid, List.length_map, List.length_range]
    have hcol := columnHeight_of_length zone currentDate hlen
    refine ⟨by unfold hourSlots; rw [List.length_map, hlen], ?_, rfl, ?_, hcol⟩
    · intro slot hs
      unfold hourSlots at hs
      rw [List.mem_map] at hs
      obtain ⟨h, _, rfl⟩ := hs
      rfl
    · rw [hcol]
      rfl
  · intro tz currentDate
    refine ⟨hourSlots_fixedZone tz currentDate, ?_⟩
    rw [hourSlots_fixedZone]
    decide

theorem toNumber_two_digits (a b : Nat) (ha : a < 10) (hb : b < 10) :
    toNumber [digitChar a, digitChar b] = some (a * 10 + b) := by
  interval_cases a <;> interval_cases b <;> rfl

theorem padStart_two_mk (n : Nat) (h : n < 100) :
    String.mk [digitChar (n / 10), digitChar (n % 10)] = padStart 2 n := by
  rw [← padStart_two_data n h]

/-- The end text made from an `HH:mm` text is the `HH:mm` text of the next
hour number. -/
theorem slotEnd_timeText (hour min : Nat) (hh : hour < 100) (hm : min < 100) :
    slotEnd (timeText hour min) = timeText (hour + 1) min := by
  unfold slotEnd
  simp only [splitOn_timeText hour min hh hm, List.get?, Option.getD_some,
    toNumber_two_digits _ _ (show hour / 10 < 10 by omega) (Nat.mod_lt _ (by decide)),
    padStart_two_mk min hm]
  have e : hour / 10 * 10 + hour % 10 = hour := by omega
  rw [e]
  rfl

/-- C24: a slot click at an `HH:mm` time prefills the form with the date of
the slot, the time as start and the text of hour `HH + 1` with the same
minutes as end.  Up to 22 hours the end is a time of day and the form computes
60 minutes (in every zone of one UTC offset); the slot of 23:00 gets the end
`24:00`, which is not a time of day (the form computes `NaN`).  The timeline
sends times of day (the times 00:00 to 23:00 in every zone of one UTC
offset), the month cells send 09:00. -/
theorem handleSlotClick_prefill (date : Int) (hour min : Nat)
    (hh : hour ≤ 23) (hm : min ≤ 59) :
    handleSlotClick date (timeText hour min)
      = InitialData.slot (formatDate date) (timeText hour min) (timeText (hour + 1) min) ∧
    (hour ≤ 22 →
      parseHHmm (timeText (hour + 1) min).data = some (hour + 1, min) ∧
      ∀ (tz : Int) (prev : FormData) (today : Int),
        submitDuration (fixedZone tz)
          (mergeInitialData prev (some (handleSlotClick date (timeText hour min)))) today
          = some 60) ∧
    (hour = 23 → min = 0 →
      handleSlotClick date (timeText hour min)
        = InitialData.slot (formatDate date) "23:00" "24:00" ∧
      parseHHmm "24:00".data = none ∧
      ∀ (zone : Zone) (prev : FormData) (today : Int),
        submitDuration zone
          (mergeInitialData prev (some (handleSlotClick date (timeText hour min)))) today
          = none) ∧
    (∀ (tz : Int) (daysCount currentDate : Int),
      ∀ slot ∈ timelineSlots (fixedZone tz) daysCount currentDate,
        ∃ i : Nat, i ≤ 23 ∧ slot.2 = timeText i 0) ∧
    (∀ (zone : Zone) (daysCount currentDate : Int),
      ∀ slot ∈ timelineSlots zone daysCount currentDate,
        ∃ h m : Nat, h ≤ 23 ∧ m ≤ 59 ∧ slot.2 = timeText h m) ∧
    (∀ currentDate : Int, ∀ slot ∈ monthSlots currentDate, slot.2 = timeText 9 0) := by
  have hclick : handleSlotClick date (timeText hour min)
      = InitialData.slot (formatDate date) (timeText hour min) (timeText (hour + 1) min) := by
    unfold handleSlotClick
    rw [slotEnd_timeText hour min (by omega) (by omega)]
  refine ⟨hclick, ?_, ?_, ?_, ?_, ?_⟩
  · intro h22
    refine ⟨parseHHmm_timeText (hour + 1) min (by omega) hm, ?_⟩
    intro tz prev today
    rw [hclick]
    have := submitDuration_same_offset (fixedZone tz)
      (mergeInitialData prev
        (some (InitialData.slot (formatDate date) (timeText hour min)
          (timeText (hour + 1) min))))
      today hour min (hour + 1) min rfl rfl hh hm (by omega) hm rfl
    rw [this]
    congr 1
    push_cast
    ring
  · intro h23 h0
    subst h23 h0
    refine ⟨hclick, by decide, ?_⟩
    intro zone prev today
    rw [hclick]
    have hend : parse (timeText (23 + 1) 0) today = none := by
      unfold parse
      have : parseHHmm (timeText (23 + 1) 0).data = none := by decide
      rw [this]
    simp only [submitDuration, mergeInitialData, hend]
    split <;> simp_all
  · intro tz daysCount currentDate slot hs
    unfold timelineSlots at hs
    rw [List.mem_flatMap] at hs
    obtain ⟨d, _, hs⟩ := hs
    rw [hours_eq, List.map_map, List.mem_map] at hs
    obtain ⟨i, hi, rfl⟩ := hs
    rw [List.mem_range] at hi
    exact ⟨i, by omega, formatHHmm_full_hour _ i hi⟩
  · intro zone daysCount currentDate slot hs
    unfold timelineSlots at hs
    rw [List.mem_flatMap] at hs
    obtain ⟨d, _, hs⟩ := hs
    rw [List.mem_map] at hs
    obtain ⟨t, _, rfl⟩ := hs
    exact formatHHmm_time_of_day t
  · intro currentDate slot hs
    unfold monthSlots at hs
    rw [List.mem_map] at hs
    obtain ⟨d, _, rfl⟩ := hs
    rfl

theorem handleSlotClick_prefill_witness :
    23 ≤ 23 ∧ 0 ≤ 59 ∧
    handleSlotClick march5 (timeText 23 0)
      = InitialData.slot "2024-03-05" "23:00" "24:00" ∧
    handleSlotClick march5 "09:00" = InitialData.slot "2024-03-05" "09:00" "10:00" := by
  have h := (handleSlotClick_prefill march5 23 0 (by decide) (by decide)).1
  refine ⟨by decide, by decide, ?_, by decide⟩
  rw [h]
  decide
/-! ### Percentages, ticks, entity selection -/

/-- In non-null statistics the total is positive and both percentages are
numbers. -/
theorem ratioPercent_of_stats (t : String → String) (today : Int) (events : List Event)
    (entities : List Entity) (s : Stats) (hs : stats t today events entities = some s) :
    0 < s.total ∧
    ratioPercent s 0 = some (mathRound (toDouble (toDouble
      (((events.filter fun e => e.mode == Mode.online).length : Rat)
        / (events.length : Rat)) * 100))) ∧
    ratioPercent s 1 = some (mathRound (toDouble (toDouble
      (((events.filter fun e => e.mode == Mode.presence).length : Rat)
        / (events.length : Rat)) * 100))) := by
  unfold stats at hs
  split_ifs at hs with h0
  simp only [Option.some.injEq] at hs
  subst hs
  refine ⟨Nat.pos_of_ne_zero h0, ?_, ?_⟩ <;>
    simp [ratioPercent, modeData, h0]

/-- C21: the two percentages are computed in the charts branch only, and
there `stats` is not `null` and its total is positive, so neither division
has a zero divisor; with no events no percentage is computed. -/
theorem ratios_guarded (t : String → String) (today : Int) (events : List Event)
    (entities : List Entity) :
    (∀ ratios, renderedRatios (dashboardBody t today events entities) = some ratios →
      ∃ s, stats t today events entities = some s ∧ 0 < s.total ∧
        s.total = events.length ∧
        ∃ online presence : Int, ratios = (some online, some presence)) ∧
    (events = [] → renderedRatios (dashboardBody t today events entities) = none) ∧
    (∀ s, stats t today events entities = some s →
      0 < s.total ∧
      ratioPercent s 0 = some (mathRound (toDouble (toDouble
        (((events.filter fun e => e.mode == Mode.online).length : Rat)
          / (events.length : Rat)) * 100))) ∧
      ratioPercent s 1 = some (mathRound (toDouble (toDouble
        (((events.filter fun e => e.mode == Mode.presence).length : Rat)
          / (events.length : Rat)) * 100)))) := by
  have hstats := ratioPercent_of_stats t today events entities
  refine ⟨?_, ?_, hstats⟩
  · intro ratios hr
    unfold dashboardBody at hr
    cases hs : stats t today events entities with
    | none =>
      rw [hs] at hr
      exact absurd hr (by simp [renderedRatios])
    | some s =>
      rw [hs] at hr
      simp only [renderedRatios, Option.some.injEq] at hr
      obtain ⟨hpos, h0, h1⟩ := hstats s hs
      refine ⟨s, rfl, hpos, ?_, ?_⟩
      · unfold stats at hs
        split_ifs at hs
        simp only [Option.some.injEq] at hs
        subst hs
        rfl
      · rw [← hr, h0, h1]
        exact ⟨_, _, rfl⟩
  · intro he
    subst he
    rfl

theorem toDouble_zero : toDouble 0 = 0 := by
  unfold toDouble
  rw [if_pos rfl]

theorem toDouble_one : toDouble 1 = 1 := by
  rw [toDouble_of_binade 1 0 (by norm_num) (by norm_num)]
  norm_num [roundHalfEven]

theorem toDouble_hundred : toDouble 100 = 100 := by
  rw [toDouble_of_binade 100 6 (by norm_num [abs_of_pos]) (by norm_num [abs_of_pos])]
  norm_num [roundHalfEven]

/-- With 23 online events of 40 the dashboard shows 57: the quotient and the
product are doubles just below 0.575 and 57.5. -/
theorem ratio_of_23_in_40 : mathRound (toDouble (toDouble (23 / 40) * 100)) = 57 := by
  have h1 : toDouble (23 / 40) = 2589569785738035 / 4503599627370496 := by
    rw [toDouble_of_binade (23 / 40) (-1) (by norm_num [abs_of_pos])
      (by norm_num [abs_of_pos])]
    norm_num [roundHalfEven]
  have h2 : toDouble (2589569785738035 / 4503599627370496 * 100)
      = 8092405580431359 / 140737488355328 := by
    rw [toDouble_of_binade _ 5 (by norm_num [abs_of_pos]) (by norm_num [abs_of_pos])]
    norm_num [roundHalfEven]
  rw [h1, h2]
  norm_num [mathRound]

theorem scenario_ratios :
    renderedRatios (dashboardBody (fun key => key) march5 [scenarioEvent] [scenarioEntity])
      = some (some 100, some 0) := by
  have h := ratioPercent_of_stats (fun key => key) march5 [scenarioEvent] [scenarioEntity]
  have hs : ∃ s, stats (fun key => key) march5 [scenarioEvent] [scenarioEntity] = some s := by
    unfold stats
    exact ⟨_, rfl⟩
  obtain ⟨s, hs⟩ := hs
  obtain ⟨_, h0, h1⟩ := h s hs
  unfold dashboardBody
  rw [hs]
  simp only [renderedRatios, h0, h1, mathRound]
  have e1 : ((List.filter (fun e => e.mode == Mode.online) [scenarioEvent]).length : Rat) = 1 := by
    have : (List.filter (fun e => e.mode == Mode.online) [scenarioEvent]).length = 1 := by
      decide
    rw [this]
    norm_num
  have e2 : ((List.filter (fun e => e.mode == Mode.presence) [scenarioEvent]).length : Rat)
      = 0 := by
    have : (List.filter (fun e => e.mode == Mode.presence) [scenarioEvent]).length = 0 := by
      decide
    rw [this]
    norm_num
  rw [e1, e2]
  norm_num [toDouble_zero, toDouble_one, toDouble_hundred]

theorem notifies_tick_iff (event : Event) (start first : Int) (k : Nat)
    (hstart : eventDate event = some start) :
    notifies (first + (k : Int) * 60000) event = true
      ↔ (k : Int) = (start - first - 1800000) / 60000 := by
  unfold notifies diffMins
  rw [hstart]
  simp only [Option.map_some', beq_iff_eq, Option.some.injEq]
  constructor <;> intro h <;> omega

/-- C23: among ticks that come exactly 60000 ms apart, begin more than 31
minutes before the start of an event and run up to its start or past it,
exactly one has `floor((start - now) / 60000) = 30`; the run creates one
notification for the event. -/
theorem notified_once (event : Event) (entities : List Entity) (start first : Int)
    (count : Nat) (hstart : eventDate event = some start)
    (hbefore : 1860000 < start - first)
    (hpast : start ≤ first + ((count : Int) - 1) * 60000) :
    ((ticks first count).filter fun now => notifies now event).length = 1 ∧
    (((ticks first count).map fun now => tick now [event] entities).flatten).length = 1 ∧
    ∃ k : Nat, k < count ∧
      ∀ j : Nat, j < count →
        (notifies (first + (j : Int) * 60000) event = true ↔ j = k) := by
  have hk0 : 0 ≤ (start - first - 1800000) / 60000 := by omega
  have hkc : ((start - first - 1800000) / 60000).toNat < count := by omega
  have hiff : ∀ j : Nat, notifies (first + (j : Int) * 60000) event = true
      ↔ j = ((start - first - 1800000) / 60000).toNat := by
    intro j
    rw [notifies_tick_iff event start first j hstart]
    omega
  have hfilter : (ticks first count).filter (fun now => notifies now event)
      = ((List.range count).filter
          fun j => decide (j = ((start - first - 1800000) / 60000).toNat)).map
          fun j : Nat => first + (j : Int) * 60000 := by
    unfold ticks
    rw [List.filter_map]
    congr 1
    apply List.filter_congr
    intro j _
    simp only [Function.comp]
    rw [Bool.eq_iff_iff, hiff j]
    simp
  have hone : ((List.range count).filter
      fun j => decide (j = ((start - first - 1800000) / 60000).toNat)).length = 1 := by
    have hc := List.count_eq_one_of_mem (List.nodup_range count)
      (List.mem_range.2 hkc)
    rw [List.count, List.countP_eq_length_filter] at hc
    rw [← hc]
    congr 1
  have hlen : ((ticks first count).filter fun now => notifies now event).length = 1 := by
    rw [hfilter, List.length_map, hone]
  refine ⟨hlen, ?_, _, hkc, fun j _ => hiff j⟩
  rw [← hlen, List.length_flatten]
  have hper : ∀ l : List Int,
      (List.map List.length (List.map (fun now => tick now [event] entities) l)).sum
        = (l.filter fun now => notifies now event).length := by
    intro l
    induction l with
    | nil => rfl
    | cons a as ih =>
      simp only [List.map_cons, List.sum_cons, ih, List.filter_cons]
      by_cases hn : notifies a event = true
      · simp [tick, hn, Nat.add_comm]
      · simp [tick, hn]
  exact hper _

theorem notified_once_witness :
    eventDate scenarioEvent = some (makeDate 19787 32400000) ∧
    (1860000 : Int) < makeDate 19787 32400000 - makeDate 19787 28800000 ∧
    makeDate 19787 32400000 ≤ makeDate 19787 28800000 + (((62 : Nat) : Int) - 1) * 60000 ∧
    ((ticks (makeDate 19787 28800000) 62).filter
      fun now => notifies now scenarioEvent).length = 1 :=
  ⟨by decide, by decide, by decide,
    (notified_once scenarioEvent [scenarioEntity] (makeDate 19787 32400000)
      (makeDate 19787 28800000) 62 (by decide) (by decide) (by decide)).1⟩

theorem contains_eq_true_iff {l : List Nat} {a : Nat} : l.contains a = true ↔ a ∈ l := by
  simp

/-- C25: toggling an id in a selection without duplicates gives a selection
without duplicates; the id is removed when it was selected and put last when
it was not; the other ids stay, in their order; toggling twice gives back the
same set of ids. -/
theorem toggleEntityFilter_flips (selectedEntities : List Nat) (entityId : Nat)
    (hnodup : selectedEntities.Nodup) :
    (toggleEntityFilter selectedEntities entityId).Nodup ∧
    (entityId ∈ toggleEntityFilter selectedEntities entityId ↔
      entityId ∉ selectedEntities) ∧
    (entityId ∈ selectedEntities →
      toggleEntityFilter selectedEntities entityId = selectedEntities.erase entityId) ∧
    (entityId ∉ selectedEntities →
      toggleEntityFilter selectedEntities entityId = selectedEntities ++ [entityId]) ∧
    (∀ id, id ≠ entityId →
      (id ∈ toggleEntityFilter selectedEntities entityId ↔ id ∈ selectedEntities)) ∧
    ((toggleEntityFilter selectedEntities entityId).filter (fun id => id != entityId)
      = selectedEntities.filter (fun id => id != entityId)) ∧
    (∀ id, id ∈ toggleEntityFilter (toggleEntityFilter selectedEntities entityId) entityId
      ↔ id ∈ selectedEntities) := by
  have hmem : ∀ (l : List Nat) (id : Nat),
      id ∈ toggleEntityFilter l entityId ↔
        (id ≠ entityId ∧ id ∈ l) ∨ (id = entityId ∧ entityId ∉ l) := by
    intro l id
    unfold toggleEntityFilter
    by_cases h : entityId ∈ l
    · rw [if_pos (contains_eq_true_iff.2 h)]
      simp only [List.mem_filter, bne_iff_ne, ne_eq]
      tauto
    · rw [if_neg (fun hc => h (contains_eq_true_iff.1 hc))]
      simp only [List.mem_append, List.mem_singleton]
      constructor
      · rintro (h1 | h1)
        · exact Or.inl ⟨fun e => h (e ▸ h1), h1⟩
        · exact Or.inr ⟨h1, h⟩
      · rintro (⟨_, h1⟩ | ⟨h1, _⟩)
        · exact Or.inl h1
        · exact Or.inr h1
  refine ⟨?_, ?_, ?_, ?_, ?_, ?_, ?_⟩
  · unfold toggleEntityFilter
    split_ifs with h
    · exact hnodup.filter _
    · rw [contains_eq_true_iff] at h
      exact List.Nodup.append hnodup (List.nodup_singleton _) (by simpa using h)
  · rw [hmem]
    simp
  · intro h
    unfold toggleEntityFilter
    rw [if_pos (contains_eq_true_iff.2 h), hnodup.erase_eq_filter]
  · intro h
    unfold toggleEntityFilter
    rw [if_neg (fun hc => h (contains_eq_true_iff.1 hc))]
  · intro id hid
    rw [hmem]
    simp [hid]
  · unfold toggleEntityFilter
    split_ifs with h
    · rw [List.filter_filter]
      apply List.filter_congr
      intro x _
      simp
    · simp [List.filter_append]
  · intro id
    rw [hmem, hmem]
    by_cases hid : id = entityId
    · subst hid
      have h1 := hmem selectedEntities id
      simp only [ne_eq, not_true_eq_false, false_and, true_and, false_or] at h1 ⊢
      rw [h1, not_not]
    · simp [hid]

theorem toggleEntityFilter_flips_witness :
    [1, 2, 3].Nodup ∧
    toggleEntityFilter [1, 2, 3] 2 = [1, 3] ∧
    toggleEntityFilter (toggleEntityFilter [1, 2, 3] 2) 2 = [1, 3, 2] ∧
    (toggleEntityFilter [1, 2, 3] 2).Nodup :=
  ⟨by decide, by decide, by decide,
    (toggleEntityFilter_flips [1, 2, 3] 2 (by decide)).1⟩

/-- C26: toggling the one selected entity empties the selection; with the
empty selection the filter keeps every event that matches the search text,
of whatever entity, so the result grows from the events of that entity to
all events, and every entity checkbox is shown checked. -/
theorem toggle_last_selected_shows_all (toLowerCase : String → String)
    (entityId : Nat) (allEvents : List Event) (searchQuery : String) :
    toggleEntityFilter [entityId] entityId = [] ∧
    filteredEvents toLowerCase allEvents (toggleEntityFilter [entityId] entityId) searchQuery
      = allEvents.filter (fun event => matchesSearch toLowerCase searchQuery event) ∧
    filteredEvents toLowerCase allEvents [entityId] searchQuery
      = allEvents.filter
          (fun event => event.entityId == entityId && matchesSearch toLowerCase searchQuery event) ∧
    List.Sublist (filteredEvents toLowerCase allEvents [entityId] searchQuery)
      (filteredEvents toLowerCase allEvents (toggleEntityFilter [entityId] entityId) searchQuery) ∧
    (∀ e ∈ allEvents, matchesSearch toLowerCase searchQuery e = true →
      e ∈ filteredEvents toLowerCase allEvents (toggleEntityFilter [entityId] entityId) searchQuery) ∧
    (∀ entity : Entity,
      checkboxChecked (toggleEntityFilter [entityId] entityId) entity = true) ∧
    filteredEvents toLowerCase [scenarioEvent] (toggleEntityFilter [2] 2) "" = [scenarioEvent] ∧
    filteredEvents toLowerCase [scenarioEvent] [2] "" = [] := by
  have htoggle : toggleEntityFilter [entityId] entityId = [] := by
    simp [toggleEntityFilter]
  have hall : filteredEvents toLowerCase allEvents [] searchQuery
      = allEvents.filter (fun event => matchesSearch toLowerCase searchQuery event) := by
    unfold filteredEvents
    apply List.filter_congr
    intro e _
    simp [matchesEntity]
  have hone : filteredEvents toLowerCase allEvents [entityId] searchQuery
      = allEvents.filter
          (fun event => event.entityId == entityId && matchesSearch toLowerCase searchQuery event) := by
    unfold filteredEvents
    apply List.filter_congr
    intro e _
    by_cases hid : e.entityId = entityId <;> simp [matchesEntity, hid]
  refine ⟨htoggle, by rw [htoggle, hall], hone, ?_, ?_, ?_, ?_, ?_⟩
  · rw [htoggle, hall, hone]
    have : allEvents.filter
        (fun event => event.entityId == entityId && matchesSearch toLowerCase searchQuery event)
        = (allEvents.filter (fun event => matchesSearch toLowerCase searchQuery event)).filter
            (fun event => event.entityId == entityId) := by
      rw [List.filter_filter]
    rw [this]
    exact List.filter_sublist _
  · intro e he hm
    rw [htoggle, hall, List.mem_filter]
    exact ⟨he, hm⟩
  · intro entity
    rw [htoggle]
    rfl
  · simp [filteredEvents, toggleEntityFilter, matchesEntity, matchesSearch]
  · simp [filteredEvents, matchesEntity, matchesSearch, scenarioEvent]

end Calendario
